import Mathlib

/-!
Shallow embedding of `mm.c` (nik-6947/malloc): an implicit-layout /
explicit-free-list allocator with boundary-tag coalescing, first-fit
placement and LIFO free-list insertion.

Modelling choices:
* The platform is LP64: `sizeof(void *) = 8`, so `WSIZE = 8`, `DSIZE = 16`,
  `size_t`/`uintptr_t` arithmetic is modulo `2^64` (`WMOD`) and C `int` is
  32 bits (`INTMOD`).
* Memory is a total map from byte addresses to stored machine words
  (`Mem := Nat → Nat`); the allocator only ever reads and writes whole
  words at 8-aligned, mutually non-overlapping addresses, so a cell-per-
  address map is faithful.  `PUT` truncates the stored value to 64 bits,
  `GET` reads it back reduced modulo `2^64`.
* Addresses are natural numbers (the heap lives well below `2^64`, so
  pointer arithmetic never wraps; `size_t` value arithmetic, which the
  code can overflow, carries explicit `% WMOD`).
* `NULL` is the address `0`.
* The heap provider (`memlib`) is a bump pointer `brk` with capacity
  `memCap`; `mem_sbrk` returns the old break and advances it, or fails.
  Fresh provider memory is whatever the `Mem` map already holds (the
  concrete states below use zero-filled regions).
* The unbounded C loops (`find_fit`, the checker walks) take an explicit
  fuel argument; every other function is a direct state-passing
  transcription of the source, statement by statement, preserving the
  evaluation order of memory reads and writes.
-/

namespace MM

/-- Machine memory: stored word per byte address. -/
abbrev Mem := Nat → Nat

/-- Word and header/footer size in bytes: `sizeof(void *)` on LP64. -/
def WSIZE : Nat := 8

/-- Doubleword size in bytes: `2 * WSIZE`. -/
def DSIZE : Nat := 2 * WSIZE

/-- Extend heap by this amount (bytes): `1 << 12`. -/
def CHUNKSIZE : Nat := 4096

/-- Modulus of `size_t` / `uintptr_t` arithmetic (64-bit). -/
def WMOD : Nat := 2 ^ 64

/-- Modulus of C `int` (32-bit), used by `mm_realloc`'s `(int)size` casts. -/
def INTMOD : Nat := 2 ^ 32

/-- C `size_t` subtraction (wraps modulo `2^64`). -/
def csub (a b : Nat) : Nat := (a + WMOD - b % WMOD) % WMOD

/-- `PACK(size, alloc) = (size) | (alloc)`. -/
def PACK (size alloc : Nat) : Nat := size ||| alloc

/-- `GET(p) = *(uintptr_t *)(p)`: the stored word, as a 64-bit value. -/
def GET (m : Mem) (p : Nat) : Nat := m p % WMOD

/-- `PUT(p, val)`: store a 64-bit word at `p`. -/
def PUT (m : Mem) (p v : Nat) : Mem := fun a => if a = p then v % WMOD else m a

/-- `GET_SIZE(p) = GET(p) & ~(DSIZE - 1)`. -/
def GET_SIZE (m : Mem) (p : Nat) : Nat := GET m p &&& (WMOD - DSIZE)

/-- `GET_ALLOC(p) = GET(p) & 0x1`. -/
def GET_ALLOC (m : Mem) (p : Nat) : Nat := GET m p &&& 1

/-- `HDRP(bp) = (void *)(bp) - WSIZE`. -/
def HDRP (bp : Nat) : Nat := bp - WSIZE

/-- `FTRP(bp) = (void *)(bp) + GET_SIZE(HDRP(bp)) - DSIZE`. -/
def FTRP (m : Mem) (bp : Nat) : Nat := bp + GET_SIZE m (HDRP bp) - DSIZE

/-- `NEXT_BLKP(bp) = (void *)(bp) + GET_SIZE(HDRP(bp))`. -/
def NEXT_BLKP (m : Mem) (bp : Nat) : Nat := bp + GET_SIZE m (HDRP bp)

/-- `PREV_BLKP(bp) = (void *)(bp) - GET_SIZE((void *)(bp) - DSIZE)`. -/
def PREV_BLKP (m : Mem) (bp : Nat) : Nat := bp - GET_SIZE m (bp - DSIZE)

/-- `GET_NEXTP(bp) = *(char **)(bp + WSIZE)`: a free block's next-pointer word. -/
def GET_NEXTP (m : Mem) (bp : Nat) : Nat := GET m (bp + WSIZE)

/-- `GET_PREVP(bp) = *(char **)(bp)`: a free block's prev-pointer word. -/
def GET_PREVP (m : Mem) (bp : Nat) : Nat := GET m bp

/-- Allocator state: memory plus the module-scoped globals `heap_listp` and
`list_head`, and the heap provider's break pointer and capacity. -/
structure Heap where
  mem : Mem
  list_head : Nat
  heap_listp : Nat
  brk : Nat
  memCap : Nat

/-- Store one word into a state's memory. -/
def putHeap (s : Heap) (p v : Nat) : Heap :=
  ⟨PUT s.mem p v, s.list_head, s.heap_listp, s.brk, s.memCap⟩

/-- `SET_NEXTP(bp, qp)`: write a free block's next-pointer word. -/
def SET_NEXTP (s : Heap) (bp v : Nat) : Heap := putHeap s (bp + WSIZE) v

/-- `SET_PREVP(bp, qp)`: write a free block's prev-pointer word. -/
def SET_PREVP (s : Heap) (bp v : Nat) : Heap := putHeap s bp v

/-- `mem_sbrk(n)`: return the old break and advance it by `n` bytes, or
fail when the provider's capacity is exceeded. -/
def mem_sbrk (s : Heap) (n : Nat) : Heap × Option Nat :=
  if s.brk + n ≤ s.memCap
  then (⟨s.mem, s.list_head, s.heap_listp, s.brk + n, s.memCap⟩, some s.brk)
  else (s, none)

/-- `insert_list(bp)`: LIFO push at the list head.  Note the source writes
`SET_PREVP(list_head, bp)` unconditionally, also when `list_head` is null. -/
def insert_list (s : Heap) (bp : Nat) : Heap :=
  let s1 := SET_NEXTP s bp s.list_head
  let s2 := SET_PREVP s1 s1.list_head bp
  let s3 := SET_PREVP s2 bp 0
  ⟨s3.mem, bp, s3.heap_listp, s3.brk, s3.memCap⟩

/-- `remove_list(bp)`: splice out of the doubly linked free list.  The final
`SET_PREVP(GET_NEXTP(bp), GET_PREVP(bp))` is unconditional in the source,
also when `GET_NEXTP(bp)` is null; its operands are re-read after the first
statement's write, as in C. -/
def remove_list (s : Heap) (bp : Nat) : Heap :=
  let s1 := if GET_PREVP s.mem bp ≠ 0
            then SET_NEXTP s (GET_PREVP s.mem bp) (GET_NEXTP s.mem bp)
            else ⟨s.mem, GET_NEXTP s.mem bp, s.heap_listp, s.brk, s.memCap⟩
  SET_PREVP s1 (GET_NEXTP s1.mem bp) (GET_PREVP s1.mem bp)

/-- `prev_alloc` of `coalesce`: `GET_ALLOC(FTRP(PREV_BLKP(bp))) || PREV_BLKP(bp) == bp`. -/
def prevAllocP (s : Heap) (bp : Nat) : Prop :=
  GET_ALLOC s.mem (FTRP s.mem (PREV_BLKP s.mem bp)) ≠ 0 ∨ PREV_BLKP s.mem bp = bp

/-- `next_alloc` of `coalesce`: `GET_ALLOC(HDRP(NEXT_BLKP(bp)))`. -/
def nextAllocP (s : Heap) (bp : Nat) : Prop :=
  GET_ALLOC s.mem (HDRP (NEXT_BLKP s.mem bp)) ≠ 0

instance (s : Heap) (bp : Nat) : Decidable (prevAllocP s bp) := by
  unfold prevAllocP; infer_instance

instance (s : Heap) (bp : Nat) : Decidable (nextAllocP s bp) := by
  unfold nextAllocP; infer_instance

/-- `coalesce(bp)`: boundary-tag coalescing over the four neighbour cases,
ending with `insert_list(bp)` and returning the (possibly relocated) `bp`.
Each `FTRP` is evaluated in the state current at that statement, as in C. -/
def coalesce (s : Heap) (bp : Nat) : Heap × Nat :=
  let size := GET_SIZE s.mem (HDRP bp)
  if prevAllocP s bp ∧ ¬ nextAllocP s bp then
    let nb := NEXT_BLKP s.mem bp
    let size2 := (size + GET_SIZE s.mem (HDRP nb)) % WMOD
    let s1 := remove_list s nb
    let s2 := putHeap s1 (HDRP bp) (PACK size2 0)
    let s3 := putHeap s2 (FTRP s2.mem bp) (PACK size2 0)
    (insert_list s3 bp, bp)
  else if ¬ prevAllocP s bp ∧ nextAllocP s bp then
    let pb := PREV_BLKP s.mem bp
    let size2 := (size + GET_SIZE s.mem (HDRP pb)) % WMOD
    let s1 := remove_list s pb
    let s2 := putHeap s1 (HDRP pb) (PACK size2 0)
    let s3 := putHeap s2 (FTRP s2.mem pb) (PACK size2 0)
    (insert_list s3 pb, pb)
  else if ¬ prevAllocP s bp ∧ ¬ nextAllocP s bp then
    let size2 := (size + GET_SIZE s.mem (HDRP (PREV_BLKP s.mem bp))
                       + GET_SIZE s.mem (HDRP (NEXT_BLKP s.mem bp))) % WMOD
    let s1 := remove_list s (PREV_BLKP s.mem bp)
    let s2 := remove_list s1 (NEXT_BLKP s1.mem bp)
    let pb2 := PREV_BLKP s2.mem bp
    let s3 := putHeap s2 (HDRP pb2) (PACK size2 0)
    let s4 := putHeap s3 (FTRP s3.mem pb2) (PACK size2 0)
    (insert_list s4 pb2, pb2)
  else
    (insert_list s bp, bp)

/-- `mm_free(bp)`: clear the allocation bit in header and footer, then
coalesce.  A null argument is ignored. -/
def mm_free (s : Heap) (bp : Nat) : Heap :=
  if bp = 0 then s
  else
    let size := GET_SIZE s.mem (HDRP bp)
    let s1 := putHeap s (HDRP bp) (PACK size 0)
    let s2 := putHeap s1 (FTRP s1.mem bp) (PACK size 0)
    (coalesce s2 bp).1

/-- `extend_heap(words)`: round up to an even word count, `mem_sbrk`, write a
free header/footer and the new epilogue header, and coalesce. -/
def extend_heap (s : Heap) (words : Nat) : Heap × Option Nat :=
  let size := (if words % 2 = 1 then (words + 1) * WSIZE else words * WSIZE) % WMOD
  match mem_sbrk s size with
  | (s', none) => (s', none)
  | (s', some bp) =>
    let s1 := putHeap s' (HDRP bp) (PACK size 0)
    let s2 := putHeap s1 (FTRP s1.mem bp) (PACK size 0)
    let s3 := putHeap s2 (HDRP (NEXT_BLKP s2.mem bp)) (PACK 0 1)
    let r := coalesce s3 bp
    (r.1, some r.2)

/-- The state after the three writes of a successful `extend_heap` from a
state `s`, when the rounded request is `bytes`: break advanced, a free
header at the old `brk - WSIZE`, a free footer `DSIZE` below the new break,
and the new epilogue header at the new `brk - WSIZE`. -/
def extendWrites (s : Heap) (bytes : Nat) : Heap :=
  putHeap
    (putHeap
      (putHeap ⟨s.mem, s.list_head, s.heap_listp, s.brk + bytes, s.memCap⟩
        (s.brk - WSIZE) (PACK bytes 0))
      (s.brk + bytes - DSIZE) (PACK bytes 0))
    (s.brk + bytes - WSIZE) (PACK 0 1)

/-- `find_fit`'s free-list walk from a given node, with fuel for the
unbounded C loop. -/
def find_fit_from (s : Heap) : Nat → Nat → Nat → Option Nat
  | 0, _, _ => none
  | fuel + 1, bp, asize =>
    if bp = 0 then none
    else if asize ≤ GET_SIZE s.mem (HDRP bp) then some bp
    else find_fit_from s fuel (GET_NEXTP s.mem bp) asize

/-- `find_fit(asize)`: first fit over the explicit free list. -/
def find_fit (fuel : Nat) (s : Heap) (asize : Nat) : Option Nat :=
  find_fit_from s fuel s.list_head asize

/-- `place(bp, asize)`: allocate `asize` bytes at `bp`, splitting when the
remainder is at least `4 * WSIZE`.  The split test `tempSize - asize` is C
`size_t` subtraction (`csub`); `remove_list` runs in both branches. -/
def place (s : Heap) (bp asize : Nat) : Heap :=
  let tempSize := GET_SIZE s.mem (HDRP bp)
  if 4 * WSIZE ≤ csub tempSize asize then
    let s1 := putHeap s (HDRP bp) (PACK asize 1)
    let s2 := putHeap s1 (FTRP s1.mem bp) (PACK asize 1)
    let s3 := remove_list s2 bp
    let bp2 := NEXT_BLKP s3.mem bp
    let s4 := putHeap s3 (HDRP bp2) (PACK (csub tempSize asize) 0)
    let s5 := putHeap s4 (FTRP s4.mem bp2) (PACK (csub tempSize asize) 0)
    insert_list s5 bp2
  else
    let s1 := putHeap s (HDRP bp) (PACK tempSize 1)
    let s2 := putHeap s1 (FTRP s1.mem bp) (PACK tempSize 1)
    remove_list s2 bp

/-- The adjusted block size `asize` computed by `mm_malloc`: `2 * DSIZE`
for requests of at most `DSIZE` bytes, otherwise
`DSIZE * ((size + DSIZE + (DSIZE - 1)) / DSIZE)` in `size_t` arithmetic. -/
def adjusted (size : Nat) : Nat :=
  if size ≤ DSIZE then 2 * DSIZE
  else (DSIZE * (((size + DSIZE + (DSIZE - 1)) % WMOD) / DSIZE)) % WMOD

/-- `mm_malloc(size)`: zero requests yield null; otherwise first-fit search,
falling back to a heap extension of `MAX(asize, CHUNKSIZE)` bytes.  The
returned pointer is `0` for C `NULL`. -/
def mm_malloc (fuel : Nat) (s : Heap) (size : Nat) : Heap × Nat :=
  if size = 0 then (s, 0)
  else
    let asize := adjusted size
    match find_fit fuel s asize with
    | some bp => (place s bp asize, bp)
    | none =>
      let extendsize := max asize CHUNKSIZE
      match extend_heap s (extendsize / WSIZE) with
      | (s', none) => (s', 0)
      | (s', some bp) => (place s' bp asize, bp)

/-- The `memcpy(tempptr, ptr, reqsize)` of `mm_realloc`'s copy path,
modelled cell-wise on the address range (no claim inspects copied bytes). -/
def memcpyCells (m : Mem) (dst src n : Nat) : Mem :=
  fun a => if dst ≤ a ∧ a < dst + n then m (src + (a - dst)) else m a

/-- The body of `mm_realloc`'s `size > 0` branch: return `ptr` when the
present block already holds `reqsize = size + 2 * WSIZE` bytes; else absorb a
free successor when the combined size suffices; else malloc-place-copy-free. -/
def reallocPositive (fuel : Nat) (s : Heap) (ptr size : Nat) : Heap × Nat :=
  let presize := GET_SIZE s.mem (HDRP ptr)
  let reqsize := (size + 2 * WSIZE) % WMOD
  if reqsize ≤ presize then (s, ptr)
  else
    if GET_ALLOC s.mem (HDRP (NEXT_BLKP s.mem ptr)) = 0 ∧
       reqsize ≤ (presize + GET_SIZE s.mem (HDRP (NEXT_BLKP s.mem ptr))) % WMOD then
      let tempSize := (presize + GET_SIZE s.mem (HDRP (NEXT_BLKP s.mem ptr))) % WMOD
      let s1 := remove_list s (NEXT_BLKP s.mem ptr)
      let s2 := putHeap s1 (HDRP ptr) (PACK tempSize 1)
      let s3 := putHeap s2 (FTRP s2.mem ptr) (PACK tempSize 1)
      (s3, ptr)
    else
      let r := mm_malloc fuel s reqsize
      let s2 := place r.1 r.2 reqsize
      let s3 := ⟨memcpyCells s2.mem r.2 ptr reqsize,
                 s2.list_head, s2.heap_listp, s2.brk, s2.memCap⟩
      (mm_free s3 ptr, r.2)

/-- `mm_realloc(ptr, size)`: the source tests `(int)size == 0` and
`(int)size < 0` (a 32-bit truncating cast on LP64), then null `ptr`, then
the `size > 0` body. -/
def mm_realloc (fuel : Nat) (s : Heap) (ptr size : Nat) : Heap × Nat :=
  if size % INTMOD = 0 then (mm_free s ptr, 0)
  else if 2 ^ 31 ≤ size % INTMOD then (s, 0)
  else if ptr = 0 then mm_malloc fuel s size
  else if 0 < size then reallocPositive fuel s ptr size
  else (s, 0)

/-- `mm_init()`: `mem_sbrk(8 * WSIZE)`; write padding, prologue header and
footer, and the epilogue header into the first four words; point `list_head`
at the epilogue header and null its next word; extend by `CHUNKSIZE / WSIZE`
words.  `true` models return value `0` (success). -/
def mm_init (s : Heap) : Heap × Bool :=
  match mem_sbrk s (8 * WSIZE) with
  | (s', none) => (s', false)
  | (s', some base) =>
    let s1 : Heap := ⟨s'.mem, s'.list_head, base, s'.brk, s'.memCap⟩
    let s2 := putHeap s1 base 0
    let s3 := putHeap s2 (base + 1 * WSIZE) (PACK DSIZE 1)
    let s4 := putHeap s3 (base + 2 * WSIZE) (PACK DSIZE 1)
    let s5 := putHeap s4 (base + 3 * WSIZE) (PACK 0 1)
    let s6 : Heap := ⟨s5.mem, base + 3 * WSIZE, s5.heap_listp, s5.brk, s5.memCap⟩
    let s7 := SET_NEXTP s6 s6.list_head 0
    match extend_heap s7 (CHUNKSIZE / WSIZE) with
    | (s8, none) => (s8, false)
    | (s8, some _) => (s8, true)

/-- The implicit-walk free-block count of `check_free_blocks`: walk from
`heap_listp` while `GET_SIZE(HDRP(bp)) > 0`, counting blocks with a clear
allocation bit (fuel bounds the unbounded C loop). -/
def heapFreeCount (s : Heap) : Nat → Nat → Nat
  | 0, _ => 0
  | fuel + 1, bp =>
    if 0 < GET_SIZE s.mem (HDRP bp) then
      (if GET_ALLOC s.mem (HDRP bp) = 0 then 1 else 0)
        + heapFreeCount s fuel (NEXT_BLKP s.mem bp)
    else 0

/-- The free-list length count of `check_free_blocks`: walk the explicit
list from `list_head` until null. -/
def freeListLength (s : Heap) : Nat → Nat → Nat
  | 0, _ => 0
  | fuel + 1, bp =>
    if bp = 0 then 0 else 1 + freeListLength s fuel (GET_NEXTP s.mem bp)

/-- `check_free_blocks()` finds no mismatch: the implicit-walk free count
equals the free-list length (the source prints an error otherwise). -/
def check_free_blocks (s : Heap) (fuel : Nat) : Prop :=
  heapFreeCount s fuel s.heap_listp = freeListLength s fuel s.list_head

/-! ### Well-formedness of the explicit free list

The hypotheses under which `mm_malloc` is proved correct: the free list is a
proper doubly linked list of valid, pairwise disjoint free blocks below the
epilogue, the epilogue header sits at `brk - WSIZE`, and the word just below
it is either no footer of a block (`GET_SIZE` zero), the footer of a
well-formed allocated block, or the footer of a free-list member ending at
`brk`. -/

/-- The free list, as reached from `p` by `GET_NEXTP`, is exactly `ns`. -/
def chain (s : Heap) : Nat → List Nat → Prop
  | p, [] => p = 0
  | p, q :: rest => p = q ∧ q ≠ 0 ∧ chain s (GET_NEXTP s.mem q) rest

/-- Each node's `GET_PREVP` word names the preceding node (`prev` before the
first one). -/
def backlinks (s : Heap) : Nat → List Nat → Prop
  | _, [] => True
  | prev, q :: rest => GET_PREVP s.mem q = prev ∧ backlinks s q rest

/-- A structurally valid free block: 16-aligned payload pointer above the
prologue area, header word equal to its own masked size (so the allocation
bit is clear and the word is in range), size at least the 32-byte minimum,
footer equal to the header, block contained below the epilogue. -/
def nodeOK (s : Heap) (q : Nat) : Prop :=
  q % 16 = 0 ∧ 32 ≤ q ∧
  s.mem (HDRP q) = GET_SIZE s.mem (HDRP q) ∧
  32 ≤ GET_SIZE s.mem (HDRP q) ∧
  s.mem (q + GET_SIZE s.mem (HDRP q) - 16) = s.mem (HDRP q) ∧
  q + GET_SIZE s.mem (HDRP q) ≤ s.brk

/-- The byte ranges `[a - 8, a + size_a - 8)` and `[b - 8, b + size_b - 8)`
of two blocks do not overlap. -/
def disjointBlk (s : Heap) (a b : Nat) : Prop :=
  a + GET_SIZE s.mem (HDRP a) ≤ b - 8 ∨ b + GET_SIZE s.mem (HDRP b) ≤ a - 8

/-- The word at `brk - DSIZE` (read as the previous block's footer by
`coalesce` after a heap extension): either it masks to size zero, or it is
the footer of a well-formed allocated block, or the footer of a free-list
member that ends exactly at `brk`. -/
def topPrev (s : Heap) (ns : List Nat) : Prop :=
  GET_SIZE s.mem (s.brk - 16) = 0 ∨
  (∃ szp, s.mem (s.brk - 16) = szp + 1 ∧ szp % 16 = 0 ∧ 0 < szp ∧
          szp + 1 < WMOD ∧ szp + 16 ≤ s.brk ∧ s.mem (s.brk - szp - 8) = szp + 1) ∨
  (∃ q ∈ ns, q + GET_SIZE s.mem (HDRP q) = s.brk)

/-- The allocator-state invariant `mm_malloc` is verified under. -/
def Inv (s : Heap) (ns : List Nat) : Prop :=
  chain s s.list_head ns ∧
  backlinks s 0 ns ∧
  (∀ q ∈ ns, nodeOK s q) ∧
  ns.Pairwise (disjointBlk s) ∧
  s.brk % 16 = 0 ∧ 32 ≤ s.brk ∧ s.brk ≤ s.memCap ∧ s.memCap ≤ 2 ^ 60 ∧
  s.mem (s.brk - 8) = 1 ∧
  topPrev s ns

/-! ### Concrete states

Small, fully concrete allocator states used to instantiate the theorems
below and to exhibit the counterexample runs. -/

/-- A well-formed heap image: padding at 1024, prologue header/footer
(`PACK(16, 1) = 17`) at 1032/1040, one free block of 4096 bytes with payload
pointer 1056 (header 1048, footer 5136), epilogue header (`PACK(0, 1) = 1`)
at 5144. -/
def cleanMem : Mem := fun a =>
  if a = 1032 then 17 else if a = 1040 then 17 else
  if a = 1048 then 4096 else if a = 5136 then 4096 else
  if a = 5144 then 1 else 0

/-- A well-formed allocator state: free list `[1056]`, break 5152. -/
def cleanState : Heap := ⟨cleanMem, 1056, 1040, 5152, 2 ^ 20⟩

/-- A zero-filled provider region starting at break 1024 with capacity
5184 = 1024 + 8 * WSIZE + CHUNKSIZE: the initial state handed to `mm_init`. -/
def zeroHeap : Heap := ⟨fun _ => 0, 0, 0, 1024, 5184⟩

/-- The same zero-filled region but with provider capacity 1088, exactly the
initial `8 * WSIZE` request: `mm_init`'s own `extend_heap` call then fails
without touching the state, so `(mm_init zeroHeapSmall).1` is precisely the
state `mm_init` hands to `extend_heap`. -/
def zeroHeapSmall : Heap := ⟨fun _ => 0, 0, 0, 1024, 1088⟩

/-- The state `mm_init` hands to its `extend_heap` call, with the provider
capacity restored to 5184 so that the extension can succeed. -/
def initMidUp : Heap :=
  ⟨(mm_init zeroHeapSmall).1.mem, (mm_init zeroHeapSmall).1.list_head,
   (mm_init zeroHeapSmall).1.heap_listp, (mm_init zeroHeapSmall).1.brk, 5184⟩

/-- A state whose free list is the single node 64 (both link words zero);
the sentinel value 77 at address 0 witnesses the write through null. -/
def soleState : Heap := ⟨fun a => if a = 0 then 77 else 0, 64, 0, 0, 0⟩

/-- A state with an empty free list (`list_head = 0`) and all-zero memory. -/
def emptyListState : Heap := ⟨fun _ => 0, 0, 0, 0, 0⟩

/-- A state with an allocated 32-byte block at payload pointer 1056
(header `PACK(32, 1) = 33` at 1048, footer at 1072). -/
def tinyState : Heap :=
  ⟨fun a => if a = 1048 then 33 else if a = 1072 then 33 else 0, 0, 0, 0, 0⟩

/-- A state with an allocated 32-byte block at payload pointer 64 whose
payload still holds stale free-list links (prev 0 at 64, next 160 at 72);
`list_head` is 24. -/
def staleState : Heap :=
  ⟨fun a => if a = 56 then 33 else if a = 80 then 33 else
            if a = 72 then 160 else 0,
   24, 0, 0, 0⟩

instance (s : Heap) (fuel : Nat) : Decidable (check_free_blocks s fuel) := by
  unfold check_free_blocks; infer_instance

instance (s : Heap) (q : Nat) : Decidable (nodeOK s q) := by
  unfold nodeOK; infer_instance

instance (s : Heap) (a b : Nat) : Decidable (disjointBlk s a b) := by
  unfold disjointBlk; infer_instance

/-! ## Basic lemmas: memory cells, state fields, bit arithmetic -/

theorem WMOD_eq : WMOD = 18446744073709551616 := by norm_num [WMOD]

theorem PUT_self (m : Mem) (p v : Nat) : PUT m p v p = v % WMOD := by
  simp [PUT]

theorem PUT_ne (m : Mem) (p v a : Nat) (h : a ≠ p) : PUT m p v a = m a := by
  simp [PUT, h]

theorem GET_lt (m : Mem) (p : Nat) : GET m p < WMOD :=
  Nat.mod_lt _ (by norm_num [WMOD])

theorem GET_mod (m : Mem) (p : Nat) : GET m p % WMOD = GET m p :=
  Nat.mod_eq_of_lt (GET_lt m p)

theorem GET_PUT (m : Mem) (p v a : Nat) :
    GET (PUT m p v) a = if a = p then v % WMOD else GET m a := by
  by_cases h : a = p
  · simp [GET, PUT, h, Nat.mod_mod_of_dvd _ dvd_rfl]
  · simp [GET, PUT, h]

theorem GET_of_eq (m : Mem) (p v : Nat) (h : m p = v) (hv : v < WMOD) :
    GET m p = v := by
  simp [GET, h, Nat.mod_eq_of_lt hv]

theorem and_mask_of_lt (x : Nat) (h : x < 2 ^ 64) :
    x &&& (2 ^ 64 - 16) = x - x % 16 := by
  have e1 : (2 ^ 64 - 16 : Nat) = (2 ^ 60 - 1) <<< 4 := by
    norm_num [Nat.shiftLeft_eq]
  have e2 : x - x % 16 = (x >>> 4) <<< 4 := by
    rw [Nat.shiftLeft_eq, Nat.shiftRight_eq_div_pow]
    norm_num
    omega
  rw [e1, e2]
  apply Nat.eq_of_testBit_eq
  intro i
  rw [Nat.testBit_land, Nat.testBit_shiftLeft, Nat.testBit_shiftLeft,
      Nat.testBit_shiftRight, Nat.testBit_two_pow_sub_one]
  by_cases h4 : 4 ≤ i
  · have e3 : 4 + (i - 4) = i := by omega
    rw [e3]
    by_cases h64 : i < 64
    · simp [h4, show i - 4 < 60 by omega]
    · have hx : x.testBit i = false :=
        Nat.testBit_lt_two_pow
          (lt_of_lt_of_le h (Nat.pow_le_pow_right (by norm_num) (by omega)))
      simp [hx, show ¬ i - 4 < 60 by omega]
  · simp [h4]

theorem lor_one_of_even (x : Nat) (h : x % 2 = 0) : x ||| 1 = x + 1 := by
  apply Nat.eq_of_testBit_eq
  intro i
  cases i with
  | zero =>
    rw [Nat.testBit_lor]
    simp only [Nat.testBit_zero]
    have hx1 : (x + 1) % 2 = 1 := by omega
    simp [hx1]
  | succ j =>
    rw [Nat.testBit_lor]
    have h1 : Nat.testBit 1 (j + 1) = false := by
      rw [Nat.testBit_succ]; simp
    have h2 : (x + 1).testBit (j + 1) = (x / 2).testBit j := by
      rw [Nat.testBit_succ]; congr 1; omega
    have h3 : x.testBit (j + 1) = (x / 2).testBit j := by
      rw [Nat.testBit_succ]
    rw [h1, h2, h3]
    simp

theorem GET_SIZE_eq (m : Mem) (p : Nat) :
    GET_SIZE m p = GET m p - GET m p % 16 := by
  have h := GET_lt m p
  rw [WMOD_eq] at h
  simpa [GET_SIZE, WMOD, DSIZE, WSIZE] using and_mask_of_lt (GET m p) (by omega)

theorem GET_SIZE_mod16 (m : Mem) (p : Nat) : GET_SIZE m p % 16 = 0 := by
  rw [GET_SIZE_eq]; omega

theorem GET_SIZE_le (m : Mem) (p : Nat) : GET_SIZE m p ≤ GET m p := by
  rw [GET_SIZE_eq]; omega

theorem GET_SIZE_lt (m : Mem) (p : Nat) : GET_SIZE m p < WMOD :=
  lt_of_le_of_lt (GET_SIZE_le m p) (GET_lt m p)

theorem GET_ALLOC_eq (m : Mem) (p : Nat) : GET_ALLOC m p = GET m p % 2 := by
  simp [GET_ALLOC, Nat.and_one_is_mod]

theorem GET_SIZE_of_eq (m : Mem) (p v : Nat) (h : m p = v) (hv : v < WMOD)
    (h16 : v % 16 = 0) : GET_SIZE m p = v := by
  rw [GET_SIZE_eq, GET_of_eq m p v h hv]; omega

theorem PACK_zero (x : Nat) : PACK x 0 = x := by
  simp [PACK]

theorem PACK_one (x : Nat) (h : x % 2 = 0) : PACK x 1 = x + 1 := by
  simp [PACK, lor_one_of_even x h]

theorem putHeap_mem (s : Heap) (p v : Nat) :
    (putHeap s p v).mem = PUT s.mem p v := rfl

theorem putHeap_head (s : Heap) (p v : Nat) :
    (putHeap s p v).list_head = s.list_head := rfl

theorem putHeap_brk (s : Heap) (p v : Nat) : (putHeap s p v).brk = s.brk := rfl

theorem putHeap_memCap (s : Heap) (p v : Nat) :
    (putHeap s p v).memCap = s.memCap := rfl

theorem putHeap_heap_listp (s : Heap) (p v : Nat) :
    (putHeap s p v).heap_listp = s.heap_listp := rfl

theorem putHeap_cancel (s : Heap) (p v : Nat) (h : s.mem p = v % WMOD) :
    putHeap s p v = s := by
  obtain ⟨m, l, hp, b, c⟩ := s
  simp only [putHeap]
  congr 1
  funext a
  by_cases ha : a = p
  · subst ha; simpa [PUT] using h.symm
  · simp [PUT, ha]

theorem csub_eq (a b : Nat) (hb : b ≤ a) (ha : a < WMOD) :
    csub a b = a - b := by
  have hbW : b < WMOD := lt_of_le_of_lt hb ha
  have h1 : b % WMOD = b := Nat.mod_eq_of_lt hbW
  rw [csub, h1, WMOD_eq]
  rw [WMOD_eq] at ha
  omega

/-! ## Free-list operation lemmas -/

theorem insert_list_head (s : Heap) (bp : Nat) :
    (insert_list s bp).list_head = bp := rfl

theorem insert_list_brk (s : Heap) (bp : Nat) :
    (insert_list s bp).brk = s.brk := rfl

theorem insert_list_memCap (s : Heap) (bp : Nat) :
    (insert_list s bp).memCap = s.memCap := rfl

theorem insert_list_heap_listp (s : Heap) (bp : Nat) :
    (insert_list s bp).heap_listp = s.heap_listp := rfl

theorem insert_list_mem (s : Heap) (bp : Nat) :
    (insert_list s bp).mem =
      PUT (PUT (PUT s.mem (bp + WSIZE) s.list_head) s.list_head bp) bp 0 := rfl

theorem insert_list_mem_ne (s : Heap) (bp a : Nat)
    (h1 : a ≠ bp + WSIZE) (h2 : a ≠ s.list_head) (h3 : a ≠ bp) :
    (insert_list s bp).mem a = s.mem a := by
  rw [insert_list_mem, PUT_ne _ _ _ _ h3, PUT_ne _ _ _ _ h2, PUT_ne _ _ _ _ h1]

theorem remove_list_brk (s : Heap) (bp : Nat) :
    (remove_list s bp).brk = s.brk := by
  unfold remove_list
  split <;> rfl

theorem remove_list_memCap (s : Heap) (bp : Nat) :
    (remove_list s bp).memCap = s.memCap := by
  unfold remove_list
  split <;> rfl

theorem remove_list_heap_listp (s : Heap) (bp : Nat) :
    (remove_list s bp).heap_listp = s.heap_listp := by
  unfold remove_list
  split <;> rfl

theorem remove_list_head (s : Heap) (bp : Nat) :
    (remove_list s bp).list_head =
      if GET_PREVP s.mem bp = 0 then GET_NEXTP s.mem bp else s.list_head := by
  unfold remove_list
  by_cases h : GET_PREVP s.mem bp = 0 <;> simp [h, SET_NEXTP, SET_PREVP, putHeap]

theorem remove_list_mem_ne (s : Heap) (bp a : Nat)
    (h1 : a ≠ GET_PREVP s.mem bp + WSIZE) (h2 : a ≠ GET_NEXTP s.mem bp) :
    (remove_list s bp).mem a = s.mem a := by
  unfold remove_list
  by_cases hp : GET_PREVP s.mem bp = 0
  · simp only [hp, ne_eq, not_true_eq_false, if_false, ite_false]
    simp [SET_PREVP, putHeap, PUT_ne _ _ _ _ h2]
  · simp only [ne_eq, hp, not_false_eq_true, if_true, ite_true]
    have hnx : GET_NEXTP (PUT s.mem (GET_PREVP s.mem bp + WSIZE) (GET_NEXTP s.mem bp)) bp
        = GET_NEXTP s.mem bp := by
      unfold GET_NEXTP
      rw [GET_PUT]
      split
      · exact GET_mod s.mem (bp + WSIZE)
      · rfl
    simp only [SET_PREVP, SET_NEXTP, putHeap, hnx]
    rw [PUT_ne _ _ _ _ h2, PUT_ne _ _ _ _ h1]

theorem GET_SIZE_congr (m1 m2 : Mem) (p : Nat) (h : m1 p = m2 p) :
    GET_SIZE m1 p = GET_SIZE m2 p := by
  unfold GET_SIZE GET
  rw [h]

theorem GET_SIZE_PUT_pack0 (m : Mem) (p v : Nat) (hv : v < WMOD)
    (h16 : v % 16 = 0) : GET_SIZE (PUT m p (PACK v 0)) p = v := by
  have hg : GET (PUT m p (PACK v 0)) p = v := by
    rw [GET_PUT, if_pos rfl, PACK_zero, Nat.mod_eq_of_lt hv]
  rw [GET_SIZE_eq, hg]
  omega

/-! ## Coalesce case lemmas (C2) -/

theorem coalesce_case1 (s : Heap) (bp : Nat)
    (hpa : prevAllocP s bp) (hna : nextAllocP s bp) :
    coalesce s bp = (insert_list s bp, bp) := by
  unfold coalesce
  simp only []
  rw [if_neg (fun h => h.2 hna), if_neg (fun h => h.1 hpa),
      if_neg (fun h => h.1 hpa)]

theorem coalesce_case2 (s : Heap) (bp : Nat)
    (hpa : prevAllocP s bp) (hna : ¬ nextAllocP s bp) :
    coalesce s bp =
      (insert_list
        (putHeap
          (putHeap (remove_list s (NEXT_BLKP s.mem bp)) (HDRP bp)
            (PACK ((GET_SIZE s.mem (HDRP bp)
                    + GET_SIZE s.mem (HDRP (NEXT_BLKP s.mem bp))) % WMOD) 0))
          (bp + (GET_SIZE s.mem (HDRP bp)
                 + GET_SIZE s.mem (HDRP (NEXT_BLKP s.mem bp))) % WMOD - DSIZE)
          (PACK ((GET_SIZE s.mem (HDRP bp)
                  + GET_SIZE s.mem (HDRP (NEXT_BLKP s.mem bp))) % WMOD) 0))
        bp, bp) := by
  have ha := GET_SIZE_mod16 s.mem (HDRP bp)
  have hb := GET_SIZE_mod16 s.mem (HDRP (NEXT_BLKP s.mem bp))
  have h16 : (GET_SIZE s.mem (HDRP bp)
              + GET_SIZE s.mem (HDRP (NEXT_BLKP s.mem bp))) % WMOD % 16 = 0 := by
    rw [WMOD_eq]
    omega
  have hlt : (GET_SIZE s.mem (HDRP bp)
              + GET_SIZE s.mem (HDRP (NEXT_BLKP s.mem bp))) % WMOD < WMOD :=
    Nat.mod_lt _ (by norm_num [WMOD])
  unfold coalesce
  simp only []
  rw [if_pos ⟨hpa, hna⟩]
  have hftrp : FTRP (putHeap (remove_list s (NEXT_BLKP s.mem bp)) (HDRP bp)
      (PACK ((GET_SIZE s.mem (HDRP bp)
              + GET_SIZE s.mem (HDRP (NEXT_BLKP s.mem bp))) % WMOD) 0)).mem bp
      = bp + (GET_SIZE s.mem (HDRP bp)
              + GET_SIZE s.mem (HDRP (NEXT_BLKP s.mem bp))) % WMOD - DSIZE := by
    unfold FTRP
    rw [putHeap_mem, GET_SIZE_PUT_pack0 _ _ _ hlt h16]
  rw [hftrp]

theorem coalesce_case3 (s : Heap) (bp : Nat)
    (hpa : ¬ prevAllocP s bp) (hna : nextAllocP s bp) :
    coalesce s bp =
      (insert_list
        (putHeap
          (putHeap (remove_list s (PREV_BLKP s.mem bp)) (HDRP (PREV_BLKP s.mem bp))
            (PACK ((GET_SIZE s.mem (HDRP bp)
                    + GET_SIZE s.mem (HDRP (PREV_BLKP s.mem bp))) % WMOD) 0))
          (PREV_BLKP s.mem bp
           + (GET_SIZE s.mem (HDRP bp)
              + GET_SIZE s.mem (HDRP (PREV_BLKP s.mem bp))) % WMOD - DSIZE)
          (PACK ((GET_SIZE s.mem (HDRP bp)
                  + GET_SIZE s.mem (HDRP (PREV_BLKP s.mem bp))) % WMOD) 0))
        (PREV_BLKP s.mem bp), PREV_BLKP s.mem bp) := by
  have ha := GET_SIZE_mod16 s.mem (HDRP bp)
  have hb := GET_SIZE_mod16 s.mem (HDRP (PREV_BLKP s.mem bp))
  have h16 : (GET_SIZE s.mem (HDRP bp)
              + GET_SIZE s.mem (HDRP (PREV_BLKP s.mem bp))) % WMOD % 16 = 0 := by
    rw [WMOD_eq]
    omega
  have hlt : (GET_SIZE s.mem (HDRP bp)
              + GET_SIZE s.mem (HDRP (PREV_BLKP s.mem bp))) % WMOD < WMOD :=
    Nat.mod_lt _ (by norm_num [WMOD])
  unfold coalesce
  simp only []
  rw [if_neg (fun h => hpa h.1), if_pos ⟨hpa, hna⟩]
  have hftrp : FTRP (putHeap (remove_list s (PREV_BLKP s.mem bp))
      (HDRP (PREV_BLKP s.mem bp))
      (PACK ((GET_SIZE s.mem (HDRP bp)
              + GET_SIZE s.mem (HDRP (PREV_BLKP s.mem bp))) % WMOD) 0)).mem
      (PREV_BLKP s.mem bp)
      = PREV_BLKP s.mem bp
        + (GET_SIZE s.mem (HDRP bp)
           + GET_SIZE s.mem (HDRP (PREV_BLKP s.mem bp))) % WMOD - DSIZE := by
    unfold FTRP
    rw [putHeap_mem, GET_SIZE_PUT_pack0 _ _ _ hlt h16]
  rw [hftrp]

theorem coalesce_case4 (s : Heap) (bp : Nat)
    (hpa : ¬ prevAllocP s bp) (hna : ¬ nextAllocP s bp)
    (h1 : GET_PREVP s.mem (PREV_BLKP s.mem bp) + WSIZE ≠ HDRP bp)
    (h2 : GET_NEXTP s.mem (PREV_BLKP s.mem bp) ≠ HDRP bp)
    (h3 : GET_PREVP s.mem (PREV_BLKP s.mem bp) + WSIZE ≠ bp - DSIZE)
    (h4 : GET_NEXTP s.mem (PREV_BLKP s.mem bp) ≠ bp - DSIZE)
    (h5 : GET_PREVP (remove_list s (PREV_BLKP s.mem bp)).mem (NEXT_BLKP s.mem bp)
            + WSIZE ≠ bp - DSIZE)
    (h6 : GET_NEXTP (remove_list s (PREV_BLKP s.mem bp)).mem (NEXT_BLKP s.mem bp)
            ≠ bp - DSIZE) :
    coalesce s bp =
      (insert_list
        (putHeap
          (putHeap
            (remove_list (remove_list s (PREV_BLKP s.mem bp)) (NEXT_BLKP s.mem bp))
            (HDRP (PREV_BLKP s.mem bp))
            (PACK ((GET_SIZE s.mem (HDRP bp)
                    + GET_SIZE s.mem (HDRP (PREV_BLKP s.mem bp))
                    + GET_SIZE s.mem (HDRP (NEXT_BLKP s.mem bp))) % WMOD) 0))
          (PREV_BLKP s.mem bp
           + (GET_SIZE s.mem (HDRP bp)
              + GET_SIZE s.mem (HDRP (PREV_BLKP s.mem bp))
              + GET_SIZE s.mem (HDRP (NEXT_BLKP s.mem bp))) % WMOD - DSIZE)
          (PACK ((GET_SIZE s.mem (HDRP bp)
                  + GET_SIZE s.mem (HDRP (PREV_BLKP s.mem bp))
                  + GET_SIZE s.mem (HDRP (NEXT_BLKP s.mem bp))) % WMOD) 0))
        (PREV_BLKP s.mem bp), PREV_BLKP s.mem bp) := by
  have ha := GET_SIZE_mod16 s.mem (HDRP bp)
  have hb := GET_SIZE_mod16 s.mem (HDRP (PREV_BLKP s.mem bp))
  have hc := GET_SIZE_mod16 s.mem (HDRP (NEXT_BLKP s.mem bp))
  have h16 : (GET_SIZE s.mem (HDRP bp)
              + GET_SIZE s.mem (HDRP (PREV_BLKP s.mem bp))
              + GET_SIZE s.mem (HDRP (NEXT_BLKP s.mem bp))) % WMOD % 16 = 0 := by
    rw [WMOD_eq]
    omega
  have hlt : (GET_SIZE s.mem (HDRP bp)
              + GET_SIZE s.mem (HDRP (PREV_BLKP s.mem bp))
              + GET_SIZE s.mem (HDRP (NEXT_BLKP s.mem bp))) % WMOD < WMOD :=
    Nat.mod_lt _ (by norm_num [WMOD])
  have hnb1 : NEXT_BLKP (remove_list s (PREV_BLKP s.mem bp)).mem bp
      = NEXT_BLKP s.mem bp := by
    unfold NEXT_BLKP
    rw [GET_SIZE_congr _ s.mem _
      (remove_list_mem_ne s (PREV_BLKP s.mem bp) (HDRP bp)
        (fun h => h1 h.symm) (fun h => h2 h.symm))]
  have hmem2 : (remove_list (remove_list s (PREV_BLKP s.mem bp))
      (NEXT_BLKP s.mem bp)).mem (bp - DSIZE) = s.mem (bp - DSIZE) := by
    rw [remove_list_mem_ne _ _ _ (fun h => h5 h.symm) (fun h => h6 h.symm),
        remove_list_mem_ne _ _ _ (fun h => h3 h.symm) (fun h => h4 h.symm)]
  have hpb2 : PREV_BLKP (remove_list (remove_list s (PREV_BLKP s.mem bp))
      (NEXT_BLKP s.mem bp)).mem bp = PREV_BLKP s.mem bp := by
    show bp - GET_SIZE (remove_list (remove_list s (PREV_BLKP s.mem bp))
      (NEXT_BLKP s.mem bp)).mem (bp - DSIZE) = PREV_BLKP s.mem bp
    rw [GET_SIZE_congr _ s.mem _ hmem2]
    rfl
  unfold coalesce
  simp only []
  rw [if_neg (fun h => hpa h.1), if_neg (fun h => hna h.2), if_pos ⟨hpa, hna⟩]
  rw [hnb1, hpb2]
  have hftrp : FTRP (putHeap (remove_list (remove_list s (PREV_BLKP s.mem bp))
      (NEXT_BLKP s.mem bp)) (HDRP (PREV_BLKP s.mem bp))
      (PACK ((GET_SIZE s.mem (HDRP bp)
              + GET_SIZE s.mem (HDRP (PREV_BLKP s.mem bp))
              + GET_SIZE s.mem (HDRP (NEXT_BLKP s.mem bp))) % WMOD) 0)).mem
      (PREV_BLKP s.mem bp)
      = PREV_BLKP s.mem bp
        + (GET_SIZE s.mem (HDRP bp)
           + GET_SIZE s.mem (HDRP (PREV_BLKP s.mem bp))
           + GET_SIZE s.mem (HDRP (NEXT_BLKP s.mem bp))) % WMOD - DSIZE := by
    unfold FTRP
    rw [putHeap_mem, GET_SIZE_PUT_pack0 _ _ _ hlt h16]
  rw [hftrp]

/-! ## Structural lemmas about the free-list invariant (C1) -/

theorem GET_SIZE_of_pack1 (m : Mem) (p v : Nat) (h : m p = PACK v 1)
    (h16 : v % 16 = 0) (hv : v + 1 < WMOD) : GET_SIZE m p = v := by
  have heven : v % 2 = 0 := by omega
  rw [GET_SIZE_eq, GET_of_eq m p (v + 1) (by rw [h, PACK_one v heven]) hv]
  omega

theorem GET_SIZE_PUT_pack1 (m : Mem) (p v : Nat) (h16 : v % 16 = 0)
    (hv : v + 1 < WMOD) : GET_SIZE (PUT m p (PACK v 1)) p = v := by
  apply GET_SIZE_of_pack1 _ _ _ _ h16 hv
  rw [PUT_self]
  rw [PACK_one v (by omega)]
  exact Nat.mod_eq_of_lt hv

theorem chain_mem_ne_zero (s : Heap) :
    ∀ (ns : List Nat) (p : Nat), chain s p ns → ∀ q ∈ ns, q ≠ 0 := by
  intro ns
  induction ns with
  | nil => intro p _ q hq; cases hq
  | cons a t ih =>
    intro p hch q hq
    obtain ⟨_, ha0, ht⟩ := hch
    rcases List.mem_cons.mp hq with h | h
    · exact h ▸ ha0
    · exact ih _ ht q h

theorem chain_head_cases (s : Heap) (p : Nat) (ns : List Nat)
    (h : chain s p ns) : p = 0 ∨ p ∈ ns := by
  cases ns with
  | nil => exact Or.inl h
  | cons a t => exact Or.inr (h.1 ▸ List.mem_cons_self a t)

theorem chain_next_cases (s : Heap) :
    ∀ (ns : List Nat) (p : Nat), chain s p ns → ∀ q ∈ ns,
      GET_NEXTP s.mem q = 0 ∨ GET_NEXTP s.mem q ∈ ns := by
  intro ns
  induction ns with
  | nil => intro p _ q hq; cases hq
  | cons a t ih =>
    intro p hch q hq
    obtain ⟨hp, ha0, ht⟩ := hch
    rcases List.mem_cons.mp hq with h | h
    · subst h
      rcases chain_head_cases s _ t ht with h0 | hm
      · exact Or.inl h0
      · exact Or.inr (List.mem_cons_of_mem _ hm)
    · rcases ih _ ht q h with h0 | hm
      · exact Or.inl h0
      · exact Or.inr (List.mem_cons_of_mem _ hm)

theorem backlinks_prev_cases (s : Heap) :
    ∀ (ns : List Nat) (prev : Nat), backlinks s prev ns → ∀ q ∈ ns,
      GET_PREVP s.mem q = prev ∨ GET_PREVP s.mem q ∈ ns := by
  intro ns
  induction ns with
  | nil => intro prev _ q hq; cases hq
  | cons a t ih =>
    intro prev hbl q hq
    obtain ⟨ha, ht⟩ := hbl
    rcases List.mem_cons.mp hq with h | h
    · exact Or.inl (h ▸ ha)
    · rcases ih a ht q h with h0 | hm
      · exact Or.inr (h0 ▸ List.mem_cons_self a t)
      · exact Or.inr (List.mem_cons_of_mem _ hm)

theorem zero_or_node_mod16 (s : Heap) (ns : List Nat) (x : Nat)
    (hx : x = 0 ∨ x ∈ ns) (hns : ∀ q ∈ ns, nodeOK s q) : x % 16 = 0 := by
  rcases hx with h | h
  · simp [h]
  · exact (hns x h).1

theorem zero_or_node_ne (s : Heap) (ns : List Nat) (x t : Nat)
    (hx : x = 0 ∨ x ∈ ns) (hns : ∀ q ∈ ns, nodeOK s q)
    (ht : t % 16 = 8) : x ≠ t := by
  have h16 := zero_or_node_mod16 s ns x hx hns
  omega

theorem disjoint_forall (s : Heap) (ns : List Nat)
    (hpw : ns.Pairwise (disjointBlk s)) :
    ∀ a ∈ ns, ∀ b ∈ ns, a ≠ b → disjointBlk s a b :=
  fun _ ha _ hb hab =>
    List.Pairwise.forall (fun _ _ h => Or.symm h) hpw ha hb hab

theorem prev8_ne_hdr (s : Heap) (ns : List Nat) (p bp : Nat)
    (hp : p = 0 ∨ p ∈ ns) (hbp : bp ∈ ns)
    (hns : ∀ q ∈ ns, nodeOK s q) (hpw : ns.Pairwise (disjointBlk s)) :
    p + WSIZE ≠ HDRP bp := by
  have hbpOK := hns bp hbp
  have hbp32 : 32 ≤ bp := hbpOK.2.1
  rcases hp with h | h
  · subst h
    simp only [HDRP, WSIZE]
    omega
  · intro he
    have hpOK := hns p h
    have hp32 : 32 ≤ p := hpOK.2.1
    simp only [HDRP, WSIZE] at he
    have hpe : p = bp - 16 := by omega
    have hne : p ≠ bp := by omega
    have hd := disjoint_forall s ns hpw p h bp hbp hne
    have h1 : 32 ≤ GET_SIZE s.mem (HDRP p) := hpOK.2.2.2.1
    have h2 : 32 ≤ GET_SIZE s.mem (HDRP bp) := hbpOK.2.2.2.1
    rcases hd with hd | hd <;> omega

theorem insert_list_prevp_read (s : Heap) (bp : Nat) :
    GET_PREVP (insert_list s bp).mem bp = 0 := by
  unfold GET_PREVP
  rw [insert_list_mem, GET_PUT, if_pos rfl]
  simp

theorem insert_list_nextp_read (s : Heap) (bp : Nat)
    (hW : s.list_head < WMOD) (h1 : s.list_head ≠ bp + WSIZE) :
    GET_NEXTP (insert_list s bp).mem bp = s.list_head := by
  unfold GET_NEXTP
  rw [insert_list_mem, GET_PUT,
      if_neg (by norm_num [WSIZE] : ¬ bp + WSIZE = bp), GET_PUT,
      if_neg (fun hh => h1 hh.symm), GET_PUT, if_pos rfl]
  exact Nat.mod_eq_of_lt hW

theorem extendWrites_mem_hdr (s : Heap) (bytes : Nat) (hblt : bytes < WMOD)
    (hb16 : 16 ≤ bytes) (hbrk : 16 ≤ s.brk) :
    (extendWrites s bytes).mem (s.brk - WSIZE) = bytes := by
  have e : (extendWrites s bytes).mem =
      PUT (PUT (PUT s.mem (s.brk - WSIZE) (PACK bytes 0))
        (s.brk + bytes - DSIZE) (PACK bytes 0))
        (s.brk + bytes - WSIZE) (PACK 0 1) := rfl
  rw [e, PUT_ne _ _ _ _ (by simp only [WSIZE]; omega),
      PUT_ne _ _ _ _ (by simp only [WSIZE, DSIZE]; omega), PUT_self,
      PACK_zero]
  exact Nat.mod_eq_of_lt hblt

theorem extendWrites_mem_ne (s : Heap) (bytes a : Nat)
    (h1 : a ≠ s.brk - WSIZE) (h2 : a ≠ s.brk + bytes - DSIZE)
    (h3 : a ≠ s.brk + bytes - WSIZE) :
    (extendWrites s bytes).mem a = s.mem a := by
  have e : (extendWrites s bytes).mem =
      PUT (PUT (PUT s.mem (s.brk - WSIZE) (PACK bytes 0))
        (s.brk + bytes - DSIZE) (PACK bytes 0))
        (s.brk + bytes - WSIZE) (PACK 0 1) := rfl
  rw [e, PUT_ne _ _ _ _ h3, PUT_ne _ _ _ _ h2, PUT_ne _ _ _ _ h1]

theorem extendWrites_mem_ftr (s : Heap) (bytes : Nat) (hblt : bytes < WMOD)
    (hb16 : 16 ≤ bytes) :
    (extendWrites s bytes).mem (s.brk + bytes - DSIZE) = bytes := by
  have e : (extendWrites s bytes).mem =
      PUT (PUT (PUT s.mem (s.brk - WSIZE) (PACK bytes 0))
        (s.brk + bytes - DSIZE) (PACK bytes 0))
        (s.brk + bytes - WSIZE) (PACK 0 1) := rfl
  rw [e, PUT_ne _ _ _ _ (by simp only [WSIZE, DSIZE]; omega), PUT_self,
      PACK_zero]
  exact Nat.mod_eq_of_lt hblt

theorem extendWrites_mem_epi (s : Heap) (bytes : Nat) :
    (extendWrites s bytes).mem (s.brk + bytes - WSIZE) = 1 := by
  have e : (extendWrites s bytes).mem =
      PUT (PUT (PUT s.mem (s.brk - WSIZE) (PACK bytes 0))
        (s.brk + bytes - DSIZE) (PACK bytes 0))
        (s.brk + bytes - WSIZE) (PACK 0 1) := rfl
  rw [e, PUT_self]
  decide

theorem extend_heap_eq (s : Heap) (words bytes : Nat)
    (hbytes : bytes = if words % 2 = 1 then (words + 1) * WSIZE
                      else words * WSIZE)
    (h16 : bytes % 16 = 0) (hblt : bytes < WMOD) (hb16 : 16 ≤ bytes)
    (hcap : s.brk + bytes ≤ s.memCap) (hbrk : 16 ≤ s.brk) :
    extend_heap s words =
      ((coalesce (extendWrites s bytes) s.brk).1,
       some (coalesce (extendWrites s bytes) s.brk).2) := by
  have hsizeq : ((if words % 2 = 1 then (words + 1) * WSIZE
                  else words * WSIZE) % WMOD) = bytes := by
    rw [← hbytes]
    exact Nat.mod_eq_of_lt hblt
  have hsb : mem_sbrk s bytes =
      (⟨s.mem, s.list_head, s.heap_listp, s.brk + bytes, s.memCap⟩,
       some s.brk) := by
    unfold mem_sbrk
    rw [if_pos hcap]
  unfold extend_heap
  simp only [hsizeq, hsb]
  have hftr : FTRP (putHeap
      ⟨s.mem, s.list_head, s.heap_listp, s.brk + bytes, s.memCap⟩
      (HDRP s.brk) (PACK bytes 0)).mem s.brk = s.brk + bytes - DSIZE := by
    unfold FTRP
    rw [putHeap_mem, GET_SIZE_PUT_pack0 _ _ _ hblt h16]
  rw [hftr]
  have hnext : NEXT_BLKP (putHeap (putHeap
      ⟨s.mem, s.list_head, s.heap_listp, s.brk + bytes, s.memCap⟩
      (HDRP s.brk) (PACK bytes 0)) (s.brk + bytes - DSIZE)
      (PACK bytes 0)).mem s.brk = s.brk + bytes := by
    unfold NEXT_BLKP
    rw [putHeap_mem, putHeap_mem,
        GET_SIZE_congr _ (PUT s.mem (HDRP s.brk) (PACK bytes 0)) _
          (PUT_ne _ _ _ _ (by unfold HDRP; simp only [WSIZE, DSIZE]; omega)),
        GET_SIZE_PUT_pack0 _ _ _ hblt h16]
  rw [hnext]
  have hhd : HDRP (s.brk + bytes) = s.brk + bytes - WSIZE := rfl
  rw [hhd]
  rfl

theorem adjusted_spec (size : Nat) (hs : size + 32 ≤ WMOD) :
    adjusted size % 16 = 0 ∧ 32 ≤ adjusted size ∧
    size + 16 ≤ adjusted size ∧ adjusted size < WMOD := by
  unfold adjusted
  rw [WMOD_eq] at hs ⊢
  by_cases h : size ≤ DSIZE
  · rw [if_pos h]
    have hd : (2 * DSIZE : Nat) = 32 := rfl
    rw [hd]
    have h16 : size ≤ 16 := by simpa [DSIZE, WSIZE] using h
    omega
  · rw [if_neg h]
    simp only [DSIZE, WSIZE] at h ⊢
    omega

theorem find_fit_from_spec (s : Heap) (asize : Nat) :
    ∀ (ns : List Nat) (fuel p bp : Nat), chain s p ns → ns.length ≤ fuel →
      find_fit_from s fuel p asize = some bp →
      bp ∈ ns ∧ asize ≤ GET_SIZE s.mem (HDRP bp) := by
  intro ns
  induction ns with
  | nil =>
    intro fuel p bp hch _ hf
    cases fuel with
    | zero => simp [find_fit_from] at hf
    | succ f =>
      have hp : p = 0 := hch
      rw [find_fit_from, if_pos hp] at hf
      cases hf
  | cons q rest ih =>
    intro fuel p bp hch hlen hf
    obtain ⟨hp, hq0, hrest⟩ := hch
    cases fuel with
    | zero => simp at hlen
    | succ f =>
      rw [hp] at hf
      rw [find_fit_from, if_neg hq0] at hf
      by_cases hfit : asize ≤ GET_SIZE s.mem (HDRP q)
      · rw [if_pos hfit] at hf
        cases hf
        exact ⟨List.mem_cons_self q rest, hfit⟩
      · rw [if_neg hfit] at hf
        have hlen' : rest.length ≤ f := by
          simp at hlen
          omega
        obtain ⟨hmem, hge⟩ := ih f (GET_NEXTP s.mem q) bp hrest hlen' hf
        exact ⟨List.mem_cons_of_mem q hmem, hge⟩

theorem GET_congr (m1 m2 : Mem) (p : Nat) (h : m1 p = m2 p) :
    GET m1 p = GET m2 p := by
  unfold GET
  rw [h]

theorem extendWrites_head (s : Heap) (bytes : Nat) :
    (extendWrites s bytes).list_head = s.list_head := rfl

theorem zero_or_node_lt_WMOD (s : Heap) (ns : List Nat) (x : Nat)
    (hx : x = 0 ∨ x ∈ ns) (hns : ∀ q ∈ ns, nodeOK s q)
    (hb : s.brk ≤ 2 ^ 60) : x < WMOD := by
  rcases hx with h | h
  · rw [h, WMOD_eq]
    omega
  · have hOK := hns x h
    have h1 := hOK.2.2.2.1
    have h2 := hOK.2.2.2.2.2
    rw [WMOD_eq]
    omega

/-- Effect of `place(bp, asize)` on `bp`'s header, for a free block whose
raw header word is `S` (allocation bit clear): the header becomes
`PACK(asize, 1)` when the block is split and `PACK(S, 1)` otherwise.  The
three pointer side conditions say that the free-list splice and the final
insertion do not write over `bp`'s header word. -/
theorem place_hdr_spec (s : Heap) (bp asize S : Nat)
    (hhdr : s.mem (HDRP bp) = S) (hS16 : S % 16 = 0) (hSW : S < WMOD)
    (ha16 : asize % 16 = 0) (ha32 : 32 ≤ asize) (haS : asize ≤ S)
    (hbp : 32 ≤ bp)
    (hnext : GET_NEXTP s.mem bp ≠ HDRP bp)
    (hprev8 : GET_PREVP s.mem bp + WSIZE ≠ HDRP bp)
    (hhead : (if GET_PREVP s.mem bp = 0 then GET_NEXTP s.mem bp
              else s.list_head) ≠ HDRP bp) :
    (place s bp asize).mem (HDRP bp) =
      if asize + 32 ≤ S then PACK asize 1 else PACK S 1 := by
  have hS32 : 32 ≤ S := le_trans ha32 haS
  have ha1W : asize + 1 < WMOD := by
    rw [WMOD_eq] at hSW ⊢
    omega
  have hS1W : S + 1 < WMOD := by
    rw [WMOD_eq] at hSW ⊢
    omega
  have hgsS : GET_SIZE s.mem (HDRP bp) = S := GET_SIZE_of_eq _ _ _ hhdr hSW hS16
  have hcs : csub S asize = S - asize := csub_eq S asize haS hSW
  have hne_bp_hdr : bp ≠ HDRP bp := by
    simp only [HDRP, WSIZE]
    omega
  unfold place
  simp only []
  rw [hgsS, hcs]
  by_cases hsp : asize + 32 ≤ S
  · have hc : 4 * WSIZE ≤ S - asize := by
      simp only [WSIZE]
      omega
    rw [if_pos hc, if_pos hsp]
    have hftr1 : FTRP (putHeap s (HDRP bp) (PACK asize 1)).mem bp
        = bp + asize - DSIZE := by
      unfold FTRP
      rw [putHeap_mem, GET_SIZE_PUT_pack1 _ _ _ ha16 ha1W]
    rw [hftr1]
    have hne1 : bp ≠ bp + asize - DSIZE := by
      simp only [DSIZE, WSIZE]
      omega
    have hne2 : bp + WSIZE ≠ bp + asize - DSIZE := by
      simp only [DSIZE, WSIZE]
      omega
    have hne3 : bp + WSIZE ≠ HDRP bp := by
      simp only [HDRP, WSIZE]
      omega
    have hne4 : HDRP bp ≠ bp + asize - DSIZE := by
      simp only [HDRP, DSIZE, WSIZE]
      omega
    have hprev2 : GET_PREVP (putHeap (putHeap s (HDRP bp) (PACK asize 1))
        (bp + asize - DSIZE) (PACK asize 1)).mem bp = GET_PREVP s.mem bp := by
      unfold GET_PREVP
      exact GET_congr _ _ _
        (by rw [putHeap_mem, putHeap_mem, PUT_ne _ _ _ _ hne1,
                PUT_ne _ _ _ _ hne_bp_hdr])
    have hnext2 : GET_NEXTP (putHeap (putHeap s (HDRP bp) (PACK asize 1))
        (bp + asize - DSIZE) (PACK asize 1)).mem bp = GET_NEXTP s.mem bp := by
      unfold GET_NEXTP
      exact GET_congr _ _ _
        (by rw [putHeap_mem, putHeap_mem, PUT_ne _ _ _ _ hne2,
                PUT_ne _ _ _ _ hne3])
    have h2v : (putHeap (putHeap s (HDRP bp) (PACK asize 1))
        (bp + asize - DSIZE) (PACK asize 1)).mem (HDRP bp) = asize + 1 := by
      rw [putHeap_mem, putHeap_mem, PUT_ne _ _ _ _ hne4, PUT_self,
          PACK_one asize (by omega), Nat.mod_eq_of_lt ha1W]
    have h3v : (remove_list (putHeap (putHeap s (HDRP bp) (PACK asize 1))
        (bp + asize - DSIZE) (PACK asize 1)) bp).mem (HDRP bp) = asize + 1 := by
      rw [remove_list_mem_ne _ _ _
            (by rw [hprev2]; exact fun hh => hprev8 hh.symm)
            (by rw [hnext2]; exact fun hh => hnext hh.symm), h2v]
    have hnb : NEXT_BLKP (remove_list (putHeap (putHeap s (HDRP bp)
        (PACK asize 1)) (bp + asize - DSIZE) (PACK asize 1)) bp).mem bp
        = bp + asize := by
      unfold NEXT_BLKP
      rw [GET_SIZE_of_pack1 _ _ asize
            (by rw [h3v, PACK_one asize (by omega)]) ha16 ha1W]
    rw [hnb]
    have hsa16 : (S - asize) % 16 = 0 := by omega
    have hsaW : S - asize < WMOD := lt_of_le_of_lt (Nat.sub_le S asize) hSW
    have hftr4 : FTRP (putHeap (remove_list (putHeap (putHeap s (HDRP bp)
        (PACK asize 1)) (bp + asize - DSIZE) (PACK asize 1)) bp)
        (HDRP (bp + asize)) (PACK (S - asize) 0)).mem (bp + asize)
        = bp + asize + (S - asize) - DSIZE := by
      unfold FTRP
      rw [putHeap_mem, GET_SIZE_PUT_pack0 _ _ _ hsaW hsa16]
    rw [hftr4]
    have haddr : bp + asize + (S - asize) - DSIZE = bp + S - DSIZE := by
      simp only [DSIZE, WSIZE]
      omega
    rw [haddr]
    have hh5 : (putHeap (putHeap (remove_list (putHeap (putHeap s (HDRP bp)
        (PACK asize 1)) (bp + asize - DSIZE) (PACK asize 1)) bp)
        (HDRP (bp + asize)) (PACK (S - asize) 0)) (bp + S - DSIZE)
        (PACK (S - asize) 0)).list_head
        = (if GET_PREVP s.mem bp = 0 then GET_NEXTP s.mem bp
           else s.list_head) := by
      simp only [putHeap_head, remove_list_head, hprev2, hnext2]
    rw [insert_list_mem_ne _ _ _
          (by simp only [HDRP, WSIZE]; omega)
          (by rw [hh5]; exact fun hh => hhead hh.symm)
          (by simp only [HDRP, WSIZE]; omega)]
    rw [putHeap_mem, PUT_ne _ _ _ _
          (by simp only [HDRP, DSIZE, WSIZE]; omega), putHeap_mem,
        PUT_ne _ _ _ _ (by simp only [HDRP, WSIZE]; omega), h3v,
        PACK_one asize (by omega)]
  · have hc : ¬ 4 * WSIZE ≤ S - asize := by
      simp only [WSIZE]
      omega
    rw [if_neg hc, if_neg hsp]
    have hftr1 : FTRP (putHeap s (HDRP bp) (PACK S 1)).mem bp
        = bp + S - DSIZE := by
      unfold FTRP
      rw [putHeap_mem, GET_SIZE_PUT_pack1 _ _ _ hS16 hS1W]
    rw [hftr1]
    have hne1 : bp ≠ bp + S - DSIZE := by
      simp only [DSIZE, WSIZE]
      omega
    have hne2 : bp + WSIZE ≠ bp + S - DSIZE := by
      simp only [DSIZE, WSIZE]
      omega
    have hne3 : bp + WSIZE ≠ HDRP bp := by
      simp only [HDRP, WSIZE]
      omega
    have hne4 : HDRP bp ≠ bp + S - DSIZE := by
      simp only [HDRP, DSIZE, WSIZE]
      omega
    have hprev2 : GET_PREVP (putHeap (putHeap s (HDRP bp) (PACK S 1))
        (bp + S - DSIZE) (PACK S 1)).mem bp = GET_PREVP s.mem bp := by
      unfold GET_PREVP
      exact GET_congr _ _ _
        (by rw [putHeap_mem, putHeap_mem, PUT_ne _ _ _ _ hne1,
                PUT_ne _ _ _ _ hne_bp_hdr])
    have hnext2 : GET_NEXTP (putHeap (putHeap s (HDRP bp) (PACK S 1))
        (bp + S - DSIZE) (PACK S 1)).mem bp = GET_NEXTP s.mem bp := by
      unfold GET_NEXTP
      exact GET_congr _ _ _
        (by rw [putHeap_mem, putHeap_mem, PUT_ne _ _ _ _ hne2,
                PUT_ne _ _ _ _ hne3])
    have h2v : (putHeap (putHeap s (HDRP bp) (PACK S 1))
        (bp + S - DSIZE) (PACK S 1)).mem (HDRP bp) = S + 1 := by
      rw [putHeap_mem, putHeap_mem, PUT_ne _ _ _ _ hne4, PUT_self,
          PACK_one S (by omega), Nat.mod_eq_of_lt hS1W]
    rw [remove_list_mem_ne _ _ _
          (by rw [hprev2]; exact fun hh => hprev8 hh.symm)
          (by rw [hnext2]; exact fun hh => hnext hh.symm), h2v,
        PACK_one S (by omega)]

/-- `mm_malloc`'s extension path under the free-list invariant: either the
provider refuses, or `extend_heap` yields a pointer to a well-formed free
block (possibly coalesced with a free block ending at the old break) that
satisfies every hypothesis of `place_hdr_spec`. -/
theorem extend_path_spec (s : Heap) (ns : List Nat) (asize es : Nat)
    (hes : es = max asize CHUNKSIZE)
    (hInv : Inv s ns) (ha16 : asize % 16 = 0) ( _ha32 : 32 ≤ asize)
    (haW : asize < WMOD) :
    (extend_heap s (es / WSIZE)).2 = none ∨
    (∃ s' bp S,
      extend_heap s (es / WSIZE) = (s', some bp) ∧
      bp % 16 = 0 ∧ 32 ≤ bp ∧
      s'.mem (HDRP bp) = S ∧ S % 16 = 0 ∧ S < WMOD ∧ asize ≤ S ∧
      GET_NEXTP s'.mem bp ≠ HDRP bp ∧
      GET_PREVP s'.mem bp + WSIZE ≠ HDRP bp ∧
      (if GET_PREVP s'.mem bp = 0 then GET_NEXTP s'.mem bp
       else s'.list_head) ≠ HDRP bp) := by
  obtain ⟨hch, hbl, hns, hpw, halign, hbrk32, hbrkcap, hcap60, heps, htp⟩ := hInv
  have hesa : asize ≤ es := hes ▸ le_max_left _ _
  have hes4096 : 4096 ≤ es := hes ▸ le_max_right _ _
  have hes16 : es % 16 = 0 := by
    rcases max_choice asize CHUNKSIZE with h | h <;> rw [hes, h]
    · exact ha16
    · decide
  have hesW : es < WMOD := by
    rcases max_choice asize CHUNKSIZE with h | h <;> rw [hes, h]
    · exact haW
    · rw [WMOD_eq]
      norm_num [CHUNKSIZE]
  by_cases hsb : s.brk + es ≤ s.memCap
  · -- the provider grants the extension
    have hbytes : es = if (es / WSIZE) % 2 = 1 then (es / WSIZE + 1) * WSIZE
        else (es / WSIZE) * WSIZE := by
      simp only [WSIZE]
      rw [if_neg (by omega)]
      omega
    have hEQ := extend_heap_eq s (es / WSIZE) es hbytes hes16 hesW
      (by omega) hsb (by omega)
    right
    have hSAhdr : (extendWrites s es).mem (HDRP s.brk) = es :=
      extendWrites_mem_hdr s es hesW (by omega) (by omega)
    have hheadmem : s.list_head = 0 ∨ s.list_head ∈ ns :=
      chain_head_cases s s.list_head ns hch
    have hlhW : s.list_head < WMOD :=
      zero_or_node_lt_WMOD s ns s.list_head hheadmem hns (le_trans hbrkcap hcap60)
    have hhdr8 : HDRP s.brk % 16 = 8 := by
      simp only [HDRP, WSIZE]
      omega
    have hlhne : s.list_head ≠ HDRP s.brk :=
      zero_or_node_ne s ns s.list_head (HDRP s.brk) hheadmem hns hhdr8
    have hlhne8 : s.list_head ≠ s.brk + WSIZE :=
      zero_or_node_ne s ns s.list_head (s.brk + WSIZE) hheadmem hns
        (by simp only [WSIZE]; omega)
    have hgsSA : GET_SIZE (extendWrites s es).mem (HDRP s.brk) = es :=
      GET_SIZE_of_eq _ _ _ hSAhdr hesW hes16
    have hnbSA : NEXT_BLKP (extendWrites s es).mem s.brk = s.brk + es := by
      unfold NEXT_BLKP
      rw [hgsSA]
    have hna : nextAllocP (extendWrites s es) s.brk := by
      unfold nextAllocP
      rw [hnbSA]
      have hepi1 : (extendWrites s es).mem (HDRP (s.brk + es)) = 1 :=
        extendWrites_mem_epi s es
      rw [GET_ALLOC_eq, GET_of_eq _ _ 1 hepi1 (by rw [WMOD_eq]; omega)]
      omega
    have hcont : prevAllocP (extendWrites s es) s.brk →
        (∃ s' bp S,
          extend_heap s (es / WSIZE) = (s', some bp) ∧
          bp % 16 = 0 ∧ 32 ≤ bp ∧
          s'.mem (HDRP bp) = S ∧ S % 16 = 0 ∧ S < WMOD ∧ asize ≤ S ∧
          GET_NEXTP s'.mem bp ≠ HDRP bp ∧
          GET_PREVP s'.mem bp + WSIZE ≠ HDRP bp ∧
          (if GET_PREVP s'.mem bp = 0 then GET_NEXTP s'.mem bp
           else s'.list_head) ≠ HDRP bp) := by
      intro hpa
      have hco := coalesce_case1 (extendWrites s es) s.brk hpa hna
      rw [hco] at hEQ
      simp only [] at hEQ
      refine ⟨insert_list (extendWrites s es) s.brk, s.brk, es, hEQ,
        halign, hbrk32, ?_, hes16, hesW, hesa, ?_, ?_, ?_⟩
      · rw [insert_list_mem_ne (extendWrites s es) s.brk (HDRP s.brk)
              (by simp only [HDRP, WSIZE]; omega)
              (Ne.symm hlhne)
              (by simp only [HDRP, WSIZE]; omega)]
        exact hSAhdr
      · rw [insert_list_nextp_read (extendWrites s es) s.brk hlhW hlhne8]
        exact hlhne
      · rw [insert_list_prevp_read]
        simp only [HDRP, WSIZE]
        omega
      · rw [insert_list_prevp_read, if_pos rfl,
            insert_list_nextp_read (extendWrites s es) s.brk hlhW hlhne8]
        exact hlhne
    have hprevword : (extendWrites s es).mem (s.brk - 16)
        = s.mem (s.brk - 16) :=
      extendWrites_mem_ne s es _
        (by simp only [WSIZE]; omega)
        (by simp only [WSIZE, DSIZE]; omega)
        (by simp only [WSIZE]; omega)
    have hpbSA : PREV_BLKP (extendWrites s es).mem s.brk
        = s.brk - GET_SIZE s.mem (s.brk - 16) := by
      unfold PREV_BLKP
      have hd16 : (DSIZE : Nat) = 16 := rfl
      rw [hd16, GET_SIZE_congr _ s.mem _ hprevword]
    rcases htp with htp0 |
      ⟨szp, hraw, hszp16, hszp0, hszpW, hszpbrk, hprevhdr⟩ |
      ⟨q, hqmem, hqtop⟩
    · -- the word below the break masks to size zero: PREV_BLKP(bp) == bp
      apply hcont
      right
      rw [hpbSA, htp0]
      omega
    · -- a well-formed allocated block ends at the break
      apply hcont
      left
      have hgsfoot : GET_SIZE s.mem (s.brk - 16) = szp :=
        GET_SIZE_of_pack1 _ _ _ (by rw [hraw, PACK_one szp (by omega)])
          hszp16 hszpW
      rw [hpbSA, hgsfoot]
      have hph : (extendWrites s es).mem (HDRP (s.brk - szp)) = szp + 1 := by
        rw [extendWrites_mem_ne s es _
              (by simp only [HDRP, WSIZE]; omega)
              (by simp only [HDRP, WSIZE, DSIZE]; omega)
              (by simp only [HDRP, WSIZE]; omega)]
        exact hprevhdr
      have hgsp : GET_SIZE (extendWrites s es).mem (HDRP (s.brk - szp)) = szp :=
        GET_SIZE_of_pack1 _ _ _ (by rw [hph, PACK_one szp (by omega)])
          hszp16 hszpW
      have hftrp : FTRP (extendWrites s es).mem (s.brk - szp)
          = s.brk - 16 := by
        unfold FTRP
        rw [hgsp]
        simp only [DSIZE, WSIZE]
        omega
      rw [hftrp]
      rw [GET_ALLOC_eq, GET_of_eq _ _ (szp + 1) (by rw [hprevword, hraw]) hszpW]
      omega
    · -- a free-list member ends at the break: coalesce absorbs it
      have hqOK := hns q hqmem
      obtain ⟨hq16, hq32, hqhdr, hqsz32, hqftr, hqbrk⟩ := hqOK
      have hszq16 := GET_SIZE_mod16 s.mem (HDRP q)
      have hszqW := GET_SIZE_lt s.mem (HDRP q)
      have hfoot : s.mem (s.brk - 16) = GET_SIZE s.mem (HDRP q) := by
        have hthis := hqftr
        rw [hqhdr] at hthis
        have haddr : q + GET_SIZE s.mem (HDRP q) - 16 = s.brk - 16 := by
          omega
        rw [haddr] at hthis
        exact hthis
      have hgsfoot : GET_SIZE s.mem (s.brk - 16) = GET_SIZE s.mem (HDRP q) :=
        GET_SIZE_of_eq _ _ _ hfoot hszqW hszq16
      have hpbq : PREV_BLKP (extendWrites s es).mem s.brk = q := by
        rw [hpbSA, hgsfoot]
        omega
      have hSAq8 : (extendWrites s es).mem (HDRP q) = s.mem (HDRP q) :=
        extendWrites_mem_ne s es _
          (by simp only [HDRP, WSIZE]; omega)
          (by simp only [HDRP, WSIZE, DSIZE]; omega)
          (by simp only [HDRP, WSIZE]; omega)
      have hgsSAq : GET_SIZE (extendWrites s es).mem (HDRP q)
          = GET_SIZE s.mem (HDRP q) := GET_SIZE_congr _ _ _ hSAq8
      have hftrq : FTRP (extendWrites s es).mem q = s.brk - 16 := by
        unfold FTRP
        rw [hgsSAq]
        simp only [DSIZE, WSIZE]
        omega
      have hSAfoot : (extendWrites s es).mem (s.brk - 16)
          = GET_SIZE s.mem (HDRP q) := by
        rw [hprevword, hfoot]
      have hpa : ¬ prevAllocP (extendWrites s es) s.brk := by
        unfold prevAllocP
        push_neg
        constructor
        · rw [hpbq, hftrq, GET_ALLOC_eq, GET_of_eq _ _ _ hSAfoot hszqW]
          omega
        · rw [hpbq]
          omega
      have hco := coalesce_case3 (extendWrites s es) s.brk hpa hna
      rw [hpbq, hgsSA, hgsSAq] at hco
      have hsumW : es + GET_SIZE s.mem (HDRP q) < WMOD := by
        rw [WMOD_eq]
        rw [WMOD_eq] at hszqW
        omega
      have hsum : (es + GET_SIZE s.mem (HDRP q)) % WMOD
          = es + GET_SIZE s.mem (HDRP q) := Nat.mod_eq_of_lt hsumW
      rw [hsum] at hco
      rw [hco] at hEQ
      simp only [] at hEQ
      -- link words of q are below the extension writes
      have hSAq_prev : GET_PREVP (extendWrites s es).mem q
          = GET_PREVP s.mem q := by
        unfold GET_PREVP
        exact GET_congr _ _ _
          (extendWrites_mem_ne s es _
            (by simp only [WSIZE]; omega)
            (by simp only [WSIZE, DSIZE]; omega)
            (by simp only [WSIZE]; omega))
      have hSAq_next : GET_NEXTP (extendWrites s es).mem q
          = GET_NEXTP s.mem q := by
        unfold GET_NEXTP
        exact GET_congr _ _ _
          (extendWrites_mem_ne s es _
            (by simp only [WSIZE]; omega)
            (by simp only [WSIZE, DSIZE]; omega)
            (by simp only [WSIZE]; omega))
      have hprevmem : GET_PREVP s.mem q = 0 ∨ GET_PREVP s.mem q ∈ ns := by
        rcases backlinks_prev_cases s ns 0 hbl q hqmem with h | h
        · exact Or.inl h
        · exact Or.inr h
      have hnextmem : GET_NEXTP s.mem q = 0 ∨ GET_NEXTP s.mem q ∈ ns :=
        chain_next_cases s ns s.list_head hch q hqmem
      have hq8 : HDRP q % 16 = 8 := by
        simp only [HDRP, WSIZE]
        omega
      have hq88 : (q + WSIZE) % 16 = 8 := by
        simp only [WSIZE]
        omega
      have hhd3 : (putHeap (putHeap (remove_list (extendWrites s es) q)
          (HDRP q) (PACK (es + GET_SIZE s.mem (HDRP q)) 0))
          (q + (es + GET_SIZE s.mem (HDRP q)) - DSIZE)
          (PACK (es + GET_SIZE s.mem (HDRP q)) 0)).list_head
          = if GET_PREVP s.mem q = 0 then GET_NEXTP s.mem q
            else s.list_head := by
        simp only [putHeap_head, remove_list_head, hSAq_prev, hSAq_next,
          extendWrites_head]
      have hhd3mem : (if GET_PREVP s.mem q = 0 then GET_NEXTP s.mem q
          else s.list_head) = 0 ∨
          (if GET_PREVP s.mem q = 0 then GET_NEXTP s.mem q
          else s.list_head) ∈ ns := by
        by_cases h : GET_PREVP s.mem q = 0
        · rw [if_pos h]
          exact hnextmem
        · rw [if_neg h]
          exact hheadmem
      have hWhd : (putHeap (putHeap (remove_list (extendWrites s es) q)
          (HDRP q) (PACK (es + GET_SIZE s.mem (HDRP q)) 0))
          (q + (es + GET_SIZE s.mem (HDRP q)) - DSIZE)
          (PACK (es + GET_SIZE s.mem (HDRP q)) 0)).list_head < WMOD := by
        rw [hhd3]
        exact zero_or_node_lt_WMOD s ns _ hhd3mem hns (le_trans hbrkcap hcap60)
      have hne8' : (putHeap (putHeap (remove_list (extendWrites s es) q)
          (HDRP q) (PACK (es + GET_SIZE s.mem (HDRP q)) 0))
          (q + (es + GET_SIZE s.mem (HDRP q)) - DSIZE)
          (PACK (es + GET_SIZE s.mem (HDRP q)) 0)).list_head ≠ q + WSIZE := by
        rw [hhd3]
        exact zero_or_node_ne s ns _ _ hhd3mem hns hq88
      have hnehd : (putHeap (putHeap (remove_list (extendWrites s es) q)
          (HDRP q) (PACK (es + GET_SIZE s.mem (HDRP q)) 0))
          (q + (es + GET_SIZE s.mem (HDRP q)) - DSIZE)
          (PACK (es + GET_SIZE s.mem (HDRP q)) 0)).list_head ≠ HDRP q := by
        rw [hhd3]
        exact zero_or_node_ne s ns _ _ hhd3mem hns hq8
      refine ⟨_, q, es + GET_SIZE s.mem (HDRP q), hEQ, hq16, hq32,
        ?_, by omega, hsumW, by omega, ?_, ?_, ?_⟩
      · rw [insert_list_mem_ne (putHeap (putHeap
              (remove_list (extendWrites s es) q)
              (HDRP q) (PACK (es + GET_SIZE s.mem (HDRP q)) 0))
              (q + (es + GET_SIZE s.mem (HDRP q)) - DSIZE)
              (PACK (es + GET_SIZE s.mem (HDRP q)) 0)) q (HDRP q)
              (by simp only [HDRP, WSIZE]; omega)
              (Ne.symm hnehd)
              (by simp only [HDRP, WSIZE]; omega)]
        rw [putHeap_mem, PUT_ne _ _ _ _
              (by simp only [HDRP, WSIZE, DSIZE]; omega)]
        rw [putHeap_mem, PUT_self, PACK_zero]
        exact Nat.mod_eq_of_lt hsumW
      · rw [insert_list_nextp_read (putHeap (putHeap
              (remove_list (extendWrites s es) q)
              (HDRP q) (PACK (es + GET_SIZE s.mem (HDRP q)) 0))
              (q + (es + GET_SIZE s.mem (HDRP q)) - DSIZE)
              (PACK (es + GET_SIZE s.mem (HDRP q)) 0)) q hWhd hne8']
        exact hnehd
      · rw [insert_list_prevp_read]
        simp only [HDRP, WSIZE]
        omega
      · rw [insert_list_prevp_read, if_pos rfl,
            insert_list_nextp_read (putHeap (putHeap
              (remove_list (extendWrites s es) q)
              (HDRP q) (PACK (es + GET_SIZE s.mem (HDRP q)) 0))
              (q + (es + GET_SIZE s.mem (HDRP q)) - DSIZE)
              (PACK (es + GET_SIZE s.mem (HDRP q)) 0)) q hWhd hne8']
        exact hnehd
  · -- the provider refuses
    left
    unfold extend_heap
    simp only []
    have hsizeq : ((if (es / WSIZE) % 2 = 1 then (es / WSIZE + 1) * WSIZE
        else (es / WSIZE) * WSIZE) % WMOD) = es := by
      simp only [WSIZE]
      rw [if_neg (by omega)]
      have h8 : es / 8 * 8 = es := by omega
      rw [h8]
      exact Nat.mod_eq_of_lt hesW
    rw [hsizeq]
    have hfail : mem_sbrk s es = (s, none) := by
      unfold mem_sbrk
      rw [if_neg hsb]
    rw [hfail]

/-- C2: for a block `bp` whose header and footer are already marked free,
`coalesce(bp)` follows the four neighbour-allocation cases: both neighbours
allocated inserts `bp` unchanged; a free next absorbs the next block (remove
next from the free list, new size `size(bp) + size(next)` in `size_t`
arithmetic, header rewritten at `bp` and footer at `bp + new_size - DSIZE`);
a free previous absorbs into `prev`; both free absorb both neighbours into
`prev` with the sum of the three sizes; and in every case the function
inserts and returns the (possibly relocated) coalesced block pointer.  The
fourth case carries non-aliasing side conditions saying that the first
splice's two link-word writes do not land on `bp`'s header word or on the
word holding the previous block's footer, and likewise for the second
splice — conditions any state with genuinely distinct neighbour blocks
satisfies. -/
theorem coalesce_cases (s : Heap) (bp : Nat)
    (_hH : GET_ALLOC s.mem (HDRP bp) = 0)
    (_hF : GET_ALLOC s.mem (FTRP s.mem bp) = 0) :
    (prevAllocP s bp → nextAllocP s bp →
      coalesce s bp = (insert_list s bp, bp)) ∧
    (prevAllocP s bp → ¬ nextAllocP s bp →
      coalesce s bp =
        (insert_list
          (putHeap
            (putHeap (remove_list s (NEXT_BLKP s.mem bp)) (HDRP bp)
              (PACK ((GET_SIZE s.mem (HDRP bp)
                      + GET_SIZE s.mem (HDRP (NEXT_BLKP s.mem bp))) % WMOD) 0))
            (bp + (GET_SIZE s.mem (HDRP bp)
                   + GET_SIZE s.mem (HDRP (NEXT_BLKP s.mem bp))) % WMOD - DSIZE)
            (PACK ((GET_SIZE s.mem (HDRP bp)
                    + GET_SIZE s.mem (HDRP (NEXT_BLKP s.mem bp))) % WMOD) 0))
          bp, bp)) ∧
    (¬ prevAllocP s bp → nextAllocP s bp →
      coalesce s bp =
        (insert_list
          (putHeap
            (putHeap (remove_list s (PREV_BLKP s.mem bp))
              (HDRP (PREV_BLKP s.mem bp))
              (PACK ((GET_SIZE s.mem (HDRP bp)
                      + GET_SIZE s.mem (HDRP (PREV_BLKP s.mem bp))) % WMOD) 0))
            (PREV_BLKP s.mem bp
             + (GET_SIZE s.mem (HDRP bp)
                + GET_SIZE s.mem (HDRP (PREV_BLKP s.mem bp))) % WMOD - DSIZE)
            (PACK ((GET_SIZE s.mem (HDRP bp)
                    + GET_SIZE s.mem (HDRP (PREV_BLKP s.mem bp))) % WMOD) 0))
          (PREV_BLKP s.mem bp), PREV_BLKP s.mem bp)) ∧
    (¬ prevAllocP s bp → ¬ nextAllocP s bp →
      GET_PREVP s.mem (PREV_BLKP s.mem bp) + WSIZE ≠ HDRP bp →
      GET_NEXTP s.mem (PREV_BLKP s.mem bp) ≠ HDRP bp →
      GET_PREVP s.mem (PREV_BLKP s.mem bp) + WSIZE ≠ bp - DSIZE →
      GET_NEXTP s.mem (PREV_BLKP s.mem bp) ≠ bp - DSIZE →
      GET_PREVP (remove_list s (PREV_BLKP s.mem bp)).mem (NEXT_BLKP s.mem bp)
        + WSIZE ≠ bp - DSIZE →
      GET_NEXTP (remove_list s (PREV_BLKP s.mem bp)).mem (NEXT_BLKP s.mem bp)
        ≠ bp - DSIZE →
      coalesce s bp =
        (insert_list
          (putHeap
            (putHeap
              (remove_list (remove_list s (PREV_BLKP s.mem bp))
                (NEXT_BLKP s.mem bp))
              (HDRP (PREV_BLKP s.mem bp))
              (PACK ((GET_SIZE s.mem (HDRP bp)
                      + GET_SIZE s.mem (HDRP (PREV_BLKP s.mem bp))
                      + GET_SIZE s.mem (HDRP (NEXT_BLKP s.mem bp))) % WMOD) 0))
            (PREV_BLKP s.mem bp
             + (GET_SIZE s.mem (HDRP bp)
                + GET_SIZE s.mem (HDRP (PREV_BLKP s.mem bp))
                + GET_SIZE s.mem (HDRP (NEXT_BLKP s.mem bp))) % WMOD - DSIZE)
            (PACK ((GET_SIZE s.mem (HDRP bp)
                    + GET_SIZE s.mem (HDRP (PREV_BLKP s.mem bp))
                    + GET_SIZE s.mem (HDRP (NEXT_BLKP s.mem bp))) % WMOD) 0))
          (PREV_BLKP s.mem bp), PREV_BLKP s.mem bp)) :=
  ⟨fun hpa hna => coalesce_case1 s bp hpa hna,
   fun hpa hna => coalesce_case2 s bp hpa hna,
   fun hpa hna => coalesce_case3 s bp hpa hna,
   fun hpa hna h1 h2 h3 h4 h5 h6 => coalesce_case4 s bp hpa hna h1 h2 h3 h4 h5 h6⟩

/-- C2, witness: on `cleanState` the free chunk block at 1056 has both
neighbours allocated (prologue before, epilogue after), and `coalesce`
inserts it unchanged. -/
theorem coalesce_cases_w :
    coalesce cleanState 1056 = (insert_list cleanState 1056, 1056) :=
  (coalesce_cases cleanState 1056 (by decide) (by decide)).1 (by decide)
    (by decide)

/-! ## Claims C3, C4, C5, C6, C7, C9 -/

/-- C5: the claim says `remove_list` writes `bp.prev` into `bp.next.prev`
only when `bp.next` exists.  The source performs the write unconditionally:
removing the sole element of the list (prev and next both null) stores the
null prev-pointer through the null next-pointer, i.e. at address 0, here
overwriting the sentinel 77, and leaves `list_head` null. -/
theorem remove_list_tail_null_write :
    soleState.list_head = 64 ∧ GET_PREVP soleState.mem 64 = 0 ∧
    GET_NEXTP soleState.mem 64 = 0 ∧ soleState.mem 0 = 77 ∧
    (remove_list soleState 64).mem 0 = 0 ∧
    (remove_list soleState 64).list_head = 0 := by
  decide

/-- C6 (amended): `insert_list(bp)` pushes `bp` at the head of the free list
(`bp.next = head`, `head.prev = bp`, `bp.prev = null`, `head = bp`), but the
`head.prev` write is unconditional: when the list is empty (`head = null`)
it is not suppressed and stores `bp` through the null pointer (address 0). -/
theorem insert_list_spec (s : Heap) (bp : Nat)
    (hbpW : bp < WMOD)
    (hh1 : s.list_head ≠ bp) (hh2 : s.list_head ≠ bp + WSIZE)
    (hhW : s.list_head < WMOD) :
    (insert_list s bp).list_head = bp ∧
    GET_NEXTP (insert_list s bp).mem bp = s.list_head ∧
    GET_PREVP (insert_list s bp).mem bp = 0 ∧
    (insert_list s bp).mem s.list_head = bp := by
  refine ⟨rfl, ?_, ?_, ?_⟩
  · unfold GET_NEXTP
    rw [insert_list_mem, GET_PUT, GET_PUT, GET_PUT]
    rw [if_neg (by norm_num [WSIZE] : ¬ bp + WSIZE = bp),
        if_neg (fun h => hh2 h.symm), if_pos rfl]
    exact Nat.mod_eq_of_lt hhW
  · unfold GET_PREVP
    rw [insert_list_mem, GET_PUT, if_pos rfl]
    simp
  · rw [insert_list_mem, PUT_ne _ _ _ _ hh1, PUT_self]
    exact Nat.mod_eq_of_lt hbpW

/-- C6, the counterexample to the claim as stated: inserting into the empty
list (`list_head = 0`) is claimed to suppress the `head.prev` write; the
source instead writes `bp = 64` at address 0. -/
theorem insert_list_suppression_cex :
    emptyListState.list_head = 0 ∧ emptyListState.mem 0 = 0 ∧
    (insert_list emptyListState 64).mem 0 = 64 := by
  decide

/-- C6, witness for the amended theorem at the empty-list state. -/
theorem insert_list_spec_w :
    (insert_list emptyListState 64).list_head = 64 ∧
    GET_NEXTP (insert_list emptyListState 64).mem 64 = emptyListState.list_head ∧
    GET_PREVP (insert_list emptyListState 64).mem 64 = 0 ∧
    (insert_list emptyListState 64).mem emptyListState.list_head = 64 :=
  insert_list_spec emptyListState 64 (by decide) (by decide) (by decide)
    (by decide)

/-- C7: the claim's invariant (implicit-walk free count = free-list length)
fails in a reachable quiescent state, namely right after `mm_init` on a
zero-filled provider region: `mm_init` succeeds, yet the implicit walk from
`heap_listp` finds 0 free blocks while the explicit list has length 2 (the
chunk block and the stale epilogue node `list_head` was initialized to), so
the code's own `check_free_blocks` reports a mismatch. -/
theorem mm_init_free_count_mismatch :
    (mm_init zeroHeap).2 = true ∧
    heapFreeCount (mm_init zeroHeap).1 8 (mm_init zeroHeap).1.heap_listp = 0 ∧
    freeListLength (mm_init zeroHeap).1 8 (mm_init zeroHeap).1.list_head = 2 ∧
    ¬ check_free_blocks (mm_init zeroHeap).1 8 := by
  decide

/-- C9, the counterexample to the claim as stated: `place` on an allocated
block whose size already equals the placed size is not a no-op on the
allocator state: the header and footer writes are identities, but
`remove_list` still executes on the allocated block's stale payload links
and here rewrites `list_head` from 24 to the stale next pointer 160. -/
theorem place_c9_cex :
    GET_SIZE staleState.mem (HDRP 64) = 32 ∧
    GET_ALLOC staleState.mem (HDRP 64) = 1 ∧
    staleState.list_head = 24 ∧
    (place staleState 64 32).list_head = 160 := by
  decide

/-- C9 (amended): in `mm_realloc`'s copy path, the `place` call on a block
whose header and footer already carry `PACK(asize, 1)` leaves every header
and footer unchanged but still executes the free-list splice: the call
equals `remove_list` on the same block, which can rewrite `list_head` or
link words from the stale pointers in the block's payload. -/
theorem place_matching_alloc (s : Heap) (bp asize : Nat)
    (hhdr : s.mem (HDRP bp) = PACK asize 1)
    (hftr : s.mem (bp + asize - 16) = PACK asize 1)
    (h16 : asize % 16 = 0) (hW : asize < WMOD) :
    place s bp asize = remove_list s bp := by
  have heven : asize % 2 = 0 := by omega
  have hp1 : PACK asize 1 = asize + 1 := PACK_one asize heven
  have hlt : asize + 1 < WMOD := by
    rw [WMOD_eq] at hW ⊢; omega
  have hgs : GET_SIZE s.mem (HDRP bp) = asize := by
    rw [GET_SIZE_eq, GET_of_eq s.mem (HDRP bp) (asize + 1) (by rw [hhdr, hp1]) hlt]
    omega
  have e1 : putHeap s (HDRP bp) (PACK asize 1) = s :=
    putHeap_cancel s (HDRP bp) (PACK asize 1)
      (by rw [hhdr, hp1, Nat.mod_eq_of_lt hlt])
  unfold place
  simp only [hgs, csub_eq asize asize le_rfl hW, Nat.sub_self]
  rw [if_neg (by norm_num [WSIZE] : ¬ 4 * WSIZE ≤ 0)]
  rw [e1]
  have hftrp : FTRP s.mem bp = bp + asize - 16 := by
    unfold FTRP
    rw [hgs]
    norm_num [DSIZE, WSIZE]
  rw [hftrp]
  rw [putHeap_cancel s (bp + asize - 16) (PACK asize 1)
      (by rw [hftr, hp1, Nat.mod_eq_of_lt hlt])]

/-- C9, witness for the amended theorem at a concrete allocated block. -/
theorem place_matching_alloc_w :
    place staleState 64 32 = remove_list staleState 64 :=
  place_matching_alloc staleState 64 32 (by decide) (by decide) (by decide)
    (by decide)

/-- C3, the counterexample to the claim as stated: with `s = 0` the block's
total size (32) is at least `s + 2W = 16`, yet `mm_realloc(bp, 0)` takes the
free branch and returns null, not `bp`. -/
theorem mm_realloc_shrink_cex :
    0 + 2 * WSIZE ≤ GET_SIZE tinyState.mem (HDRP 1056) ∧
    (mm_realloc 1 tinyState 1056 0).2 = 0 ∧
    (mm_realloc 1 tinyState 1056 0).2 ≠ 1056 := by
  decide

/-- C3 (amended): for a non-null `bp` and a request `s` whose low 32 bits
are neither zero nor at least `2^31` (so neither the `(int)size == 0` free
branch nor the `(int)size < 0` branch fires), if the total block size is at
least `s + 2W` then `mm_realloc(bp, s)` returns `bp` itself and leaves the
state unchanged. -/
theorem mm_realloc_inplace (fuel : Nat) (s : Heap) (ptr size : Nat)
    (hptr : ptr ≠ 0) (h0 : size % INTMOD ≠ 0) (hneg : size % INTMOD < 2 ^ 31)
    (hfit : size + 2 * WSIZE ≤ GET_SIZE s.mem (HDRP ptr)) :
    mm_realloc fuel s ptr size = (s, ptr) := by
  have hpos : 0 < size := by
    rcases Nat.eq_zero_or_pos size with h | h
    · exact absurd (by simp [h]) h0
    · exact h
  unfold mm_realloc
  rw [if_neg h0, if_neg (by omega : ¬ 2 ^ 31 ≤ size % INTMOD), if_neg hptr,
      if_pos hpos]
  unfold reallocPositive
  have hW : GET_SIZE s.mem (HDRP ptr) < WMOD := GET_SIZE_lt s.mem (HDRP ptr)
  have hreq : (size + 2 * WSIZE) % WMOD = size + 2 * WSIZE := by
    apply Nat.mod_eq_of_lt
    rw [WMOD_eq]
    rw [WMOD_eq] at hW
    norm_num [WSIZE] at hfit ⊢
    omega
  rw [hreq, if_pos hfit]

/-- C3, witness for the amended theorem: a shrink request on a 32-byte
allocated block. -/
theorem mm_realloc_inplace_w : mm_realloc 1 tinyState 1056 8 = (tinyState, 1056) :=
  mm_realloc_inplace 1 tinyState 1056 8 (by decide) (by decide) (by decide)
    (by decide)

/-- C4 (amended): on LP64 the source casts `size` to 32-bit `int`, so the
free-and-return-null branch fires exactly when the low 32 bits of `size` are
zero, the defensive null return exactly when the low 32 bits are at least
`2^31`, and only otherwise do the remaining paths (malloc for a null
pointer, the positive-size body) run. -/
theorem mm_realloc_branches (fuel : Nat) (s : Heap) (ptr size : Nat) :
    (size % INTMOD = 0 → mm_realloc fuel s ptr size = (mm_free s ptr, 0)) ∧
    (2 ^ 31 ≤ size % INTMOD → mm_realloc fuel s ptr size = (s, 0)) ∧
    (size % INTMOD ≠ 0 → size % INTMOD < 2 ^ 31 → ptr ≠ 0 →
      mm_realloc fuel s ptr size = reallocPositive fuel s ptr size) ∧
    (size % INTMOD ≠ 0 → size % INTMOD < 2 ^ 31 → ptr = 0 →
      mm_realloc fuel s ptr size = mm_malloc fuel s size) := by
  refine ⟨fun h0 => ?_, fun hneg => ?_, fun h0 hneg hptr => ?_, fun h0 hneg hptr => ?_⟩
  · unfold mm_realloc
    rw [if_pos h0]
  · unfold mm_realloc
    rw [if_neg (by omega : ¬ size % INTMOD = 0), if_pos hneg]
  · have hpos : 0 < size := by
      rcases Nat.eq_zero_or_pos size with h | h
      · exact absurd (by simp [h]) h0
      · exact h
    unfold mm_realloc
    rw [if_neg h0, if_neg (by omega : ¬ 2 ^ 31 ≤ size % INTMOD), if_neg hptr,
        if_pos hpos]
  · unfold mm_realloc
    rw [if_neg h0, if_neg (by omega : ¬ 2 ^ 31 ≤ size % INTMOD), if_pos hptr]

/-- C4, the counterexample to the claim as stated: `size = 2^32` is neither
zero nor negative as a signed value, yet `mm_realloc` frees the block (its
header's allocation bit is cleared) and returns null, because `(int)2^32`
truncates to 0. -/
theorem mm_realloc_intcast_cex :
    (4294967296 : Nat) ≠ 0 ∧ (4294967296 : Nat) < 2 ^ 63 ∧
    GET_ALLOC tinyState.mem (HDRP 1056) = 1 ∧
    (mm_realloc 1 tinyState 1056 4294967296).2 = 0 ∧
    GET_ALLOC (mm_realloc 1 tinyState 1056 4294967296).1.mem (HDRP 1056) = 0 := by
  decide

/-- C8 (amended): for every successful `extend_heap` call made from a state
whose epilogue header (the word `PACK(0, 1)`) sits at `brk - WSIZE` — true
for every call issued by `mm_malloc`, but not for the one inside `mm_init`,
which leaves the epilogue four words below the break — the address returned
by the heap provider is the old break, so its header slot is exactly the
location previously occupied by the epilogue header; `extend_heap` writes a
free header and footer covering the rounded byte count there, writes a new
size-0 allocated epilogue header at the new heap top, and returns the
result of coalescing the new block. -/
theorem extend_heap_spec (s : Heap) (words bytes : Nat)
    (hbytes : bytes = if words % 2 = 1 then (words + 1) * WSIZE
                      else words * WSIZE)
    (heps : s.mem (s.brk - WSIZE) = PACK 0 1)
    (hw : 0 < words) (hwW : (words + 1) * WSIZE < WMOD)
    (hcap : s.brk + bytes ≤ s.memCap) (hbrk : 16 ≤ s.brk) :
    (mem_sbrk s bytes).2 = some s.brk ∧
    GET s.mem (HDRP s.brk) = PACK 0 1 ∧
    extend_heap s words =
      ((coalesce (extendWrites s bytes) s.brk).1,
       some (coalesce (extendWrites s bytes) s.brk).2) ∧
    GET (extendWrites s bytes).mem (HDRP s.brk) = PACK bytes 0 ∧
    GET (extendWrites s bytes).mem (s.brk + bytes - DSIZE) = PACK bytes 0 ∧
    (extendWrites s bytes).brk = s.brk + bytes ∧
    GET (extendWrites s bytes).mem (HDRP (s.brk + bytes)) = PACK 0 1 := by
  have hWS : WSIZE = 8 := rfl
  have hDS : DSIZE = 16 := rfl
  have h16 : bytes % 16 = 0 := by
    rw [hbytes, hWS]
    rcases Nat.mod_two_eq_zero_or_one words with h | h
    · rw [if_neg (by omega : ¬ words % 2 = 1)]
      omega
    · rw [if_pos (by omega : words % 2 = 1)]
      omega
  have hwW' : (words + 1) * 8 < 18446744073709551616 := by
    rw [hWS, WMOD_eq] at hwW
    exact hwW
  have hblt : bytes < WMOD := by
    rw [WMOD_eq]
    rw [hbytes, hWS]
    split <;> omega
  have hb16 : 16 ≤ bytes := by
    rw [hbytes, hWS]
    rcases Nat.mod_two_eq_zero_or_one words with h | h
    · rw [if_neg (by omega : ¬ words % 2 = 1)]
      omega
    · rw [if_pos (by omega : words % 2 = 1)]
      omega
  have hsizeq : ((if words % 2 = 1 then (words + 1) * WSIZE
                  else words * WSIZE) % WMOD) = bytes := by
    rw [← hbytes]
    exact Nat.mod_eq_of_lt hblt
  have hsb : mem_sbrk s bytes =
      (⟨s.mem, s.list_head, s.heap_listp, s.brk + bytes, s.memCap⟩,
       some s.brk) := by
    unfold mem_sbrk
    rw [if_pos hcap]
  have hPzero : PACK 0 1 = 1 := by decide
  refine ⟨by rw [hsb], ?_, ?_, ?_, ?_, ?_, ?_⟩
  · exact GET_of_eq _ _ _ heps (by rw [hPzero, WMOD_eq]; omega)
  · unfold extend_heap
    simp only [hsizeq, hsb]
    have hftr : FTRP (putHeap
        ⟨s.mem, s.list_head, s.heap_listp, s.brk + bytes, s.memCap⟩
        (HDRP s.brk) (PACK bytes 0)).mem s.brk = s.brk + bytes - DSIZE := by
      unfold FTRP
      rw [putHeap_mem, GET_SIZE_PUT_pack0 _ _ _ hblt h16]
    rw [hftr]
    have hnext : NEXT_BLKP (putHeap (putHeap
        ⟨s.mem, s.list_head, s.heap_listp, s.brk + bytes, s.memCap⟩
        (HDRP s.brk) (PACK bytes 0)) (s.brk + bytes - DSIZE)
        (PACK bytes 0)).mem s.brk = s.brk + bytes := by
      unfold NEXT_BLKP
      rw [putHeap_mem, putHeap_mem,
          GET_SIZE_congr _ (PUT s.mem (HDRP s.brk) (PACK bytes 0)) _
            (PUT_ne _ _ _ _ (by unfold HDRP; rw [hWS, hDS]; omega)),
          GET_SIZE_PUT_pack0 _ _ _ hblt h16]
    rw [hnext]
    have hhd : HDRP (s.brk + bytes) = s.brk + bytes - WSIZE := rfl
    rw [hhd]
    rfl
  · have e : (extendWrites s bytes).mem =
        PUT (PUT (PUT s.mem (s.brk - WSIZE) (PACK bytes 0))
          (s.brk + bytes - DSIZE) (PACK bytes 0))
          (s.brk + bytes - WSIZE) (PACK 0 1) := rfl
    rw [e]
    have h1 : ¬ (HDRP s.brk = s.brk + bytes - WSIZE) := by
      unfold HDRP; rw [hWS]; omega
    have h2 : ¬ (HDRP s.brk = s.brk + bytes - DSIZE) := by
      unfold HDRP; rw [hWS, hDS]; omega
    have h3 : HDRP s.brk = s.brk - WSIZE := rfl
    rw [GET_PUT, if_neg h1, GET_PUT, if_neg h2, GET_PUT, if_pos h3]
    rw [PACK_zero, Nat.mod_eq_of_lt hblt]
  · have e : (extendWrites s bytes).mem =
        PUT (PUT (PUT s.mem (s.brk - WSIZE) (PACK bytes 0))
          (s.brk + bytes - DSIZE) (PACK bytes 0))
          (s.brk + bytes - WSIZE) (PACK 0 1) := rfl
    rw [e]
    have h1 : ¬ (s.brk + bytes - DSIZE = s.brk + bytes - WSIZE) := by
      rw [hWS, hDS]; omega
    rw [GET_PUT, if_neg h1, GET_PUT, if_pos rfl]
    rw [PACK_zero, Nat.mod_eq_of_lt hblt]
  · rfl
  · have e : (extendWrites s bytes).mem =
        PUT (PUT (PUT s.mem (s.brk - WSIZE) (PACK bytes 0))
          (s.brk + bytes - DSIZE) (PACK bytes 0))
          (s.brk + bytes - WSIZE) (PACK 0 1) := rfl
    rw [e]
    have h3 : HDRP (s.brk + bytes) = s.brk + bytes - WSIZE := rfl
    rw [GET_PUT, if_pos h3]
    rw [hPzero, WMOD_eq]

/-- C8, the counterexample to the claim as stated: in the `extend_heap` call
made during `mm_init`, the provider returns the old break 1088 while the
epilogue header written by `mm_init` sits at 1048 = base + 3 * WSIZE, four
words lower, so the returned block's header slot (1080) is not the location
previously occupied by the epilogue header.  The input state is obtained
from the code itself: with provider capacity 1088 `mm_init`'s extension
fails without touching the state, so `(mm_init zeroHeapSmall).1` is exactly
the state `mm_init` hands to `extend_heap`; `initMidUp` restores the
capacity so the same call succeeds. -/
theorem extend_heap_init_cex :
    (mm_init zeroHeapSmall).2 = false ∧
    (mm_init zeroHeapSmall).1.brk = 1088 ∧
    (mm_init zeroHeapSmall).1.mem 1048 = PACK 0 1 ∧
    (mm_init zeroHeapSmall).1.mem 1080 = 0 ∧
    (mem_sbrk initMidUp 4096).2 = some 1088 ∧
    (extend_heap initMidUp 512).2 = some 1088 ∧
    HDRP 1088 = 1080 ∧
    (1080 : Nat) ≠ 1048 ∧
    GET initMidUp.mem 1080 ≠ PACK 0 1 := by
  decide

/-- C8, witness for the amended theorem: extending `cleanState` (epilogue at
`brk - WSIZE = 5144`) by 512 words. -/
theorem extend_heap_spec_w :
    extend_heap cleanState 512 =
      ((coalesce (extendWrites cleanState 4096) cleanState.brk).1,
       some (coalesce (extendWrites cleanState 4096) cleanState.brk).2) :=
  (extend_heap_spec cleanState 512 4096 (by decide) (by decide) (by decide)
    (by decide) (by decide) (by decide)).2.2.1

/-- C10: for every request above `2^64 - 2 * DSIZE` the adjusted size
`asize = DSIZE * ((size + DSIZE + (DSIZE - 1)) / DSIZE)` wraps modulo
`2^64` — it differs from the unwrapped value and is strictly smaller than
`size` — and `mm_malloc` can then hand out a non-null block with fewer than
`size` usable payload bytes, as the concrete run with `size = 2^64 - 1` on
`cleanState` shows (the returned block's payload capacity is 0). -/
theorem adjusted_overflow :
    (∀ size : Nat, 2 ^ 64 - 2 * DSIZE < size → size < 2 ^ 64 →
      adjusted size < size ∧
      adjusted size ≠ DSIZE * ((size + DSIZE + (DSIZE - 1)) / DSIZE)) ∧
    (mm_malloc 2 cleanState (2 ^ 64 - 1)).2 ≠ 0 ∧
    GET_SIZE (mm_malloc 2 cleanState (2 ^ 64 - 1)).1.mem
        (HDRP (mm_malloc 2 cleanState (2 ^ 64 - 1)).2) - DSIZE
      < 2 ^ 64 - 1 := by
  refine ⟨fun size h1 h2 => ?_, by decide, by decide⟩
  have hDS : DSIZE = 16 := rfl
  rw [hDS] at h1 ⊢
  unfold adjusted
  rw [if_neg (by rw [hDS]; omega), hDS, WMOD_eq]
  constructor
  · omega
  · omega

/-- C4, witness for the amended branch description at concrete inputs. -/
theorem mm_realloc_branches_w :
    mm_realloc 1 tinyState 1056 2147483648 = (tinyState, 0) ∧
    mm_realloc 1 tinyState 1056 4 = reallocPositive 1 tinyState 1056 4 :=
  ⟨(mm_realloc_branches 1 tinyState 1056 2147483648).2.1 (by decide),
   (mm_realloc_branches 1 tinyState 1056 4).2.2.1 (by decide) (by decide)
     (by decide)⟩


/-- The concrete state `cleanState` satisfies the free-list invariant with
free list `[1056]`. -/
theorem cleanState_inv : Inv cleanState [1056] := by
  refine ⟨⟨rfl, by decide, ?_⟩, ⟨by decide, trivial⟩, ?_, by simp,
    by decide, by decide, by decide, by decide, by decide,
    Or.inr (Or.inr ⟨1056, by simp, by decide⟩)⟩
  · show GET_NEXTP cleanState.mem 1056 = 0
    decide
  · intro q hq
    have h : q = 1056 := by simpa using hq
    subst h
    exact ⟨by decide, by decide, by decide, by decide, by decide, by decide⟩

/-- C1 (amended): on a heap whose explicit free list satisfies the
well-formedness invariant `Inv`, with fuel covering the list and a request
size small enough that the `asize` computation cannot wrap
(`size + 2 * DSIZE ≤ 2 ^ 64`), `mm_malloc` returns null on zero-size
requests, and every non-null result is `DSIZE`-aligned and heads a block
whose size is at least `size + DSIZE`, i.e. whose payload capacity (block
size minus the header and footer words) is at least `size` bytes.  The
original unrestricted claim is refuted by `mm_malloc_cap_cex`. -/
theorem mm_malloc_spec (fuel : Nat) (s : Heap) (ns : List Nat) (size : Nat)
    (hInv : Inv s ns) (hfuel : ns.length ≤ fuel)
    (hsz : size + 2 * DSIZE ≤ WMOD) :
    (size = 0 → (mm_malloc fuel s size).2 = 0) ∧
    ((mm_malloc fuel s size).2 ≠ 0 →
      (mm_malloc fuel s size).2 % DSIZE = 0 ∧
      size + DSIZE ≤
        GET_SIZE (mm_malloc fuel s size).1.mem
          (HDRP (mm_malloc fuel s size).2)) := by
  have hd16 : (DSIZE : Nat) = 16 := rfl
  have hs32 : size + 32 ≤ WMOD := by
    rw [hd16] at hsz
    omega
  obtain ⟨ha16, ha32, hacap, haW⟩ := adjusted_spec size hs32
  constructor
  · intro h0
    unfold mm_malloc
    rw [if_pos h0]
  · intro hne
    by_cases hsz0 : size = 0
    · exact absurd (by unfold mm_malloc; rw [if_pos hsz0]) hne
    have hch := hInv.1
    have hbl := hInv.2.1
    have hns := hInv.2.2.1
    have hpw := hInv.2.2.2.1
    cases hff : find_fit fuel s (adjusted size) with
    | some bp =>
      have hM : mm_malloc fuel s size = (place s bp (adjusted size), bp) := by
        unfold mm_malloc
        rw [if_neg hsz0]
        simp only []
        rw [hff]
      rw [hM]
      obtain ⟨hbpmem, haS⟩ :=
        find_fit_from_spec s (adjusted size) ns fuel s.list_head bp hch
          hfuel hff
      obtain ⟨hbp16, hbp32, hraw, hS32, hftr, hbrk⟩ := hns bp hbpmem
      have hhdr8 : HDRP bp % 16 = 8 := by
        simp only [HDRP, WSIZE]
        omega
      have hnext : GET_NEXTP s.mem bp ≠ HDRP bp :=
        zero_or_node_ne s ns _ _
          (chain_next_cases s ns s.list_head hch bp hbpmem) hns hhdr8
      have hprevmem : GET_PREVP s.mem bp = 0 ∨ GET_PREVP s.mem bp ∈ ns := by
        rcases backlinks_prev_cases s ns 0 hbl bp hbpmem with h | h
        · exact Or.inl h
        · exact Or.inr h
      have hprev8 : GET_PREVP s.mem bp + WSIZE ≠ HDRP bp :=
        prev8_ne_hdr s ns _ bp hprevmem hbpmem hns hpw
      have hhead : (if GET_PREVP s.mem bp = 0 then GET_NEXTP s.mem bp
          else s.list_head) ≠ HDRP bp := by
        by_cases h : GET_PREVP s.mem bp = 0
        · rw [if_pos h]
          exact hnext
        · rw [if_neg h]
          exact zero_or_node_ne s ns _ _
            (chain_head_cases s s.list_head ns hch) hns hhdr8
      have hplace := place_hdr_spec s bp (adjusted size)
        (GET_SIZE s.mem (HDRP bp)) hraw (GET_SIZE_mod16 _ _)
        (GET_SIZE_lt _ _) ha16 ha32 haS hbp32 hnext hprev8 hhead
      refine ⟨by rw [hd16]; exact hbp16, ?_⟩
      show size + DSIZE ≤ GET_SIZE (place s bp (adjusted size)).mem (HDRP bp)
      by_cases hsplit : adjusted size + 32 ≤ GET_SIZE s.mem (HDRP bp)
      · rw [if_pos hsplit] at hplace
        have hgs := GET_SIZE_of_pack1 _ _ _ hplace ha16
          (by rw [WMOD_eq] at haW ⊢; omega)
        rw [hgs, hd16]
        omega
      · rw [if_neg hsplit] at hplace
        have hgs := GET_SIZE_of_pack1 _ _ _ hplace (GET_SIZE_mod16 _ _)
          (by have h1 := GET_SIZE_lt s.mem (HDRP bp)
              have h2 := GET_SIZE_mod16 s.mem (HDRP bp)
              rw [WMOD_eq] at h1 ⊢
              omega)
        rw [hgs, hd16]
        omega
    | none =>
      rcases extend_path_spec s ns (adjusted size)
          (max (adjusted size) CHUNKSIZE) rfl hInv ha16 ha32 haW with
        hnone |
        ⟨s', bp, S, hE, hbp16, hbp32, hhdr, hS16, hSW, haS, hnext, hprev8,
         hhead⟩
      · exfalso
        apply hne
        have hE2 : extend_heap s (max (adjusted size) CHUNKSIZE / WSIZE)
            = ((extend_heap s (max (adjusted size) CHUNKSIZE / WSIZE)).1,
               none) := by
          rw [← hnone]
        unfold mm_malloc
        rw [if_neg hsz0]
        simp only []
        rw [hff]
        simp only []
        rw [hE2]
      · have hM : mm_malloc fuel s size = (place s' bp (adjusted size), bp) := by
          unfold mm_malloc
          rw [if_neg hsz0]
          simp only []
          rw [hff]
          simp only []
          rw [hE]
        rw [hM]
        refine ⟨by rw [hd16]; exact hbp16, ?_⟩
        show size + DSIZE ≤
          GET_SIZE (place s' bp (adjusted size)).mem (HDRP bp)
        have hplace := place_hdr_spec s' bp (adjusted size) S hhdr hS16 hSW
          ha16 ha32 haS hbp32 hnext hprev8 hhead
        by_cases hsplit : adjusted size + 32 ≤ S
        · rw [if_pos hsplit] at hplace
          have hgs := GET_SIZE_of_pack1 _ _ _ hplace ha16
            (by rw [WMOD_eq] at haW ⊢; omega)
          rw [hgs, hd16]
          omega
        · rw [if_neg hsplit] at hplace
          have hgs := GET_SIZE_of_pack1 _ _ _ hplace hS16
            (by rw [WMOD_eq] at hSW ⊢; omega)
          rw [hgs, hd16]
          omega

/-- C1, counterexample to the original unrestricted claim: on the
well-formed heap `cleanState`, the request `size = 2 ^ 64 - 1` makes
`asize` wrap to 16, so `mm_malloc` returns a non-null pointer to a block
whose payload capacity (block size minus `DSIZE`) is 0, far below the
requested number of bytes. -/
theorem mm_malloc_cap_cex :
    (mm_malloc 2 cleanState (2 ^ 64 - 1)).2 ≠ 0 ∧
    (mm_malloc 2 cleanState (2 ^ 64 - 1)).2 % DSIZE = 0 ∧
    GET_SIZE (mm_malloc 2 cleanState (2 ^ 64 - 1)).1.mem
        (HDRP (mm_malloc 2 cleanState (2 ^ 64 - 1)).2) - DSIZE
      < 2 ^ 64 - 1 := by
  refine ⟨by decide, by decide, by decide⟩

/-- C1, witness: the amended guarantee instantiated at the concrete
well-formed heap `cleanState` with free list `[1056]` and request 24. -/
theorem mm_malloc_spec_w :
    (24 = 0 → (mm_malloc 1 cleanState 24).2 = 0) ∧
    ((mm_malloc 1 cleanState 24).2 ≠ 0 →
      (mm_malloc 1 cleanState 24).2 % DSIZE = 0 ∧
      24 + DSIZE ≤
        GET_SIZE (mm_malloc 1 cleanState 24).1.mem
          (HDRP (mm_malloc 1 cleanState 24).2)) :=
  mm_malloc_spec 1 cleanState [1056] 24 cleanState_inv (by decide)
    (by decide)
